import Mathlib

/-!
Shallow embedding of the two scheduling engines of this repository,
`src/simple_scheduler.py` and `src/milestone2.py`, together with the
preprocessing steps (`preprocess_data`) feeding them.

Modelling conventions:
* Python dicts are embedded as append-logs `List (k × v)`; `dget` returns the
  most recent binding, matching the overwrite semantics of `d[k] = v` and the
  lookup semantics of `d.get`.  The log view lets us state how often a key was
  written (claim C4).
* The f-string section keys `f"{course_code}_{section_num}"` are embedded as
  the structured pair `(course_code, section_num)`.  Section numbers print
  without an underscore, so splitting such a key at its last underscore
  recovers both components; the encoding is injective and the pair view is an
  exact quotient of the source.
* String fields the source only tests for truthiness or uses as dict keys
  (`student ID`, `Course code`, `Lecturer ID`) are embedded as `String`, with
  `""` standing for a missing or empty (falsy) value.  The `Type` field is
  `Option String` because `simple_scheduler` gives a missing `Type` the sort
  default `"Recommended"` while an empty string sorts with key 999.
* `Available blocks` and `Unavailable blocks` are `Option (List String)` with
  `none` for an absent key.  A JSON `null` value is not modelled:
  `simple_scheduler.preprocess_data` maps it to the default block list
  (behaviourally identical there to an empty list, which the engine also
  replaces by the default), and `milestone2` would raise a `TypeError` on it;
  no claim exercises a `null`.
* `Maximum section size` equal to `0` makes `milestone2`'s first pass raise
  `ZeroDivisionError`; in the embedding natural division by zero yields zero
  needed sections.  No claim instance uses a zero maximum size.
-/

/-- A student request, the unit classified as resolved or unresolved. -/
structure Req where
  studentId : String
  courseCode : String
  reqType : Option String
deriving DecidableEq, Repr

/-- One record of the `course_characteristics` input list
(fields the engines read, numeric defaults already resolved). -/
structure CourseChar where
  courseCode : String
  numSections : Nat
  maxSize : Nat
  availableBlocks : Option (List String)
  unavailableBlocks : Option (List String)
deriving DecidableEq, Repr

/-- One record of the `course_listings` input list. -/
structure CourseListing where
  lecturerId : String
  courseCode : String
  sectionNum : Nat
deriving DecidableEq, Repr

/-- The per-course entry of the `course_details` map built by
`preprocess_data` (fields the engines read). -/
structure CourseDetails where
  numSections : Nat
  maxSize : Nat
  availableBlocks : List String
  unavailableBlocks : List String
deriving DecidableEq, Repr

/-- Lookup in a dict modelled as an append-log: the most recent write wins,
as for a Python dict. -/
def dget {k v : Type} [DecidableEq k] : List (k × v) → k → Option v
  | [], _ => none
  | p :: l, key =>
    match dget l key with
    | some w => some w
    | none => if p.1 = key then some p.2 else none

/-- Key-membership test of a dict (`key in d` in Python). -/
def hasKey {k v : Type} [DecidableEq k] (l : List (k × v)) (key : k) : Bool :=
  l.any (fun p => decide (p.1 = key))

/-- First element of a list satisfying a Boolean predicate. -/
def firstSat {a : Type} (p : a → Bool) : List a → Option a
  | [] => none
  | x :: l => if p x then some x else firstSat p l

/-- First non-`none` value of `f` along a list. -/
def firstSome {a b : Type} (f : a → Option b) : List a → Option b
  | [] => none
  | x :: l =>
    match f x with
    | some y => some y
    | none => firstSome f l

/-- Concatenation of the images of a list, i.e. a nested loop body. -/
def catMap {a b : Type} (f : a → List b) : List a → List b
  | [] => []
  | x :: l => f x ++ catMap f l

/-- The section numbers `1, ..., n` in increasing order
(`range(1, num_sections + 1)` in the source). -/
def secRange : Nat → List Nat
  | 0 => []
  | n + 1 => secRange n ++ [n + 1]

/-- `rules['all_blocks']` of `simple_scheduler.extract_rules_and_constraints`. -/
def simpleAllBlocks : List String := ["1A", "1B", "2A", "2B", "3", "4A", "4B"]

/-- `rules['priority_order']`, set identically by both files. -/
def priorityOrder : List String := ["Required", "Requested", "Recommended"]

/-- Sort key of `simple_scheduler.generate_schedule` phase 2:
`priority_map.get(x.get('Type', 'Recommended'), 999)`. -/
def prioKey (r : Req) : Nat :=
  let t := r.reqType.getD "Recommended"
  if t = "Required" then 0
  else if t = "Requested" then 1
  else if t = "Recommended" then 2
  else 999

/-- Python's stable sort of a request list by `prioKey`.  The key only takes
the values 0, 1, 2 and 999, so the stable sort is exactly the concatenation of
the four key buckets in key order, each in original order. -/
def sortReqs (rs : List Req) : List Req :=
  rs.filter (fun r => decide (prioKey r = 0)) ++
  rs.filter (fun r => decide (prioKey r = 1)) ++
  rs.filter (fun r => decide (prioKey r = 2)) ++
  rs.filter (fun r => decide (prioKey r = 999))

/-- Filter of `milestone2`: `r.get('Type', '') == req_type`. -/
def hasTier (t : String) (r : Req) : Bool :=
  decide (r.reqType.getD "" = t)

/-- Extends a request group list with one request
(`course_requests[course_code].append(req)` on a `defaultdict(list)`). -/
def addToGroup : List (String × List Req) → Req → List (String × List Req)
  | [], r => [(r.courseCode, [r])]
  | g :: gs, r =>
    if g.1 = r.courseCode then (g.1, g.2 ++ [r]) :: gs
    else g :: addToGroup gs r

/-- Request grouping of both `preprocess_data` functions: requests with a
falsy `Course code` are dropped, the rest are grouped by course code in
first-seen order. -/
def groupRequests (reqs : List Req) : List (String × List Req) :=
  reqs.foldl (fun acc r => if r.courseCode = "" then acc else addToGroup acc r) []

/-- The `course_to_lecturer` map of both `preprocess_data` functions. -/
def buildCTL (ls : List CourseListing) : List ((String × Nat) × String) :=
  ls.foldl
    (fun acc l =>
      if l.courseCode = "" ∨ l.lecturerId = "" then acc
      else acc ++ [((l.courseCode, l.sectionNum), l.lecturerId)]) []

/-- The `course_details` map of `simple_scheduler.preprocess_data`:
an absent `Available blocks` key yields `[]` (the engine substitutes the
default list later), an absent `Unavailable blocks` key yields `[]`. -/
def simpleDetailsOf (chars : List CourseChar) : List (String × CourseDetails) :=
  chars.foldl
    (fun acc c =>
      if c.courseCode = "" then acc
      else acc ++ [(c.courseCode,
        ⟨c.numSections, c.maxSize, c.availableBlocks.getD [],
          c.unavailableBlocks.getD []⟩)]) []

/-- The `course_details` map of `milestone2.preprocess_data`:
an absent `Available blocks` key yields `rules['all_blocks']`. -/
def m2DetailsOf (allBlocks : List String) (chars : List CourseChar) :
    List (String × CourseDetails) :=
  chars.foldl
    (fun acc c =>
      if c.courseCode = "" then acc
      else acc ++ [(c.courseCode,
        ⟨c.numSections, c.maxSize, c.availableBlocks.getD allBlocks,
          c.unavailableBlocks.getD []⟩)]) []

/-- `milestone2.preprocess_data` additionally sorts every group by priority. -/
def m2GroupsOf (reqs : List Req) : List (String × List Req) :=
  (groupRequests reqs).map (fun g => (g.1, sortReqs g.2))

/-- State of the first pass (section-block assignment) of either engine. -/
structure P1State where
  teacher : List ((String × String) × String)
  secWrites : List ((String × Nat) × String)
  unresolvedP1 : List Req
deriving DecidableEq, Repr

/-- `course_to_lecturer.get(section_key, f"unknown_{course_code}")`. -/
def lecturerOf (ctl : List ((String × Nat) × String)) (c : String) (n : Nat) :
    String :=
  (dget ctl (c, n)).getD ("unknown_" ++ c)

/-- The falsy-list substitution of `simple_scheduler.generate_schedule`
lines 110-112: an empty available list is replaced by the global block list. -/
def effAvail (allBlocks avail : List String) : List String :=
  if avail.isEmpty then allBlocks else avail

/-- `f"{course_code} (Section {section_num})"`. -/
def sectionInfo (c : String) (n : Nat) : String :=
  c ++ " (Section " ++ toString n ++ ")"

/-- One section of the first pass of `simple_scheduler`: scan the global
block list for the first block that is available, not unavailable, not
already claimed by an earlier section of this course, and free in the
lecturer's schedule; on success record the binding and occupy the slot. -/
def simpleSecStep (allBlocks avail unavail : List String)
    (lectOf : Nat → String) (c : String) (p : List String × P1State)
    (n : Nat) : List String × P1State :=
  let lect := lectOf n
  match firstSat
      (fun b => decide (b ∈ avail) && !decide (b ∈ unavail) &&
        !decide (b ∈ p.1) && !hasKey p.2.teacher (lect, b)) allBlocks with
  | some b =>
      (p.1 ++ [b],
        { p.2 with
            teacher := p.2.teacher ++ [((lect, b), sectionInfo c n)],
            secWrites := p.2.secWrites ++ [((c, n), b)] })
  | none => p

/-- The per-course body of `simple_scheduler`'s first pass. -/
def simpleCourseP1 (allBlocks : List String)
    (ctl : List ((String × Nat) × String)) (c : String)
    (course : CourseDetails) (st : P1State) : P1State :=
  ((secRange course.numSections).foldl
    (simpleSecStep allBlocks (effAvail allBlocks course.availableBlocks)
      course.unavailableBlocks (lecturerOf ctl c) c) ([], st)).2

/-- One course of the first pass of `simple_scheduler.generate_schedule`:
a course without details sends all its requests to `unresolved`
immediately; otherwise its sections are assigned blocks. -/
def simpleP1Step (allBlocks : List String)
    (ctl : List ((String × Nat) × String))
    (details : List (String × CourseDetails))
    (st : P1State) (g : String × List Req) : P1State :=
  match dget details g.1 with
  | none => { st with unresolvedP1 := st.unresolvedP1 ++ g.2 }
  | some course => simpleCourseP1 allBlocks ctl g.1 course st

/-- The first pass of `simple_scheduler.generate_schedule` from a given
state. -/
def simpleP1Go (allBlocks : List String)
    (ctl : List ((String × Nat) × String))
    (details : List (String × CourseDetails))
    (groups : List (String × List Req)) (st : P1State) : P1State :=
  groups.foldl (simpleP1Step allBlocks ctl details) st

/-- The first pass of `simple_scheduler.generate_schedule`. -/
def simplePhase1 (allBlocks : List String)
    (ctl : List ((String × Nat) × String))
    (details : List (String × CourseDetails))
    (groups : List (String × List Req)) : P1State :=
  simpleP1Go allBlocks ctl details groups ⟨[], [], []⟩

/-- One section of the first pass of `milestone2`: scan the course's
available block list (not the global list) for the first block that is not
unavailable, not already claimed in this course-and-tier processing, and
free in the lecturer's schedule. -/
def m2SecStep (avail unavail : List String) (lectOf : Nat → String)
    (c : String) (p : List String × P1State) (n : Nat) :
    List String × P1State :=
  let lect := lectOf n
  match firstSat
      (fun b => !decide (b ∈ unavail) && !decide (b ∈ p.1) &&
        !hasKey p.2.teacher (lect, b)) avail with
  | some b =>
      (p.1 ++ [b],
        { p.2 with
            teacher := p.2.teacher ++ [((lect, b), sectionInfo c n)],
            secWrites := p.2.secWrites ++ [((c, n), b)] })
  | none => p

/-- The default course details `{}` of `milestone2.generate_schedule` with
the per-field defaults applied (`num_sections` 1, `max_size` 25,
`available_blocks` the global list, `unavailable_blocks` empty). -/
def m2DefaultCourse (allBlocks : List String) : CourseDetails :=
  ⟨1, 25, allBlocks, []⟩

/-- The per-tier, per-course body of `milestone2`'s first pass: the number
of sections actually created is `min(num_sections,
ceil(len(type_requests) / max_size))`, the claimed-block set restarts empty,
and an existing `section_blocks` entry is overwritten. -/
def m2CourseTierP1 (allBlocks : List String)
    (ctl : List ((String × Nat) × String))
    (details : List (String × CourseDetails)) (t : String)
    (st : P1State) (g : String × List Req) : P1State :=
  let trs := g.2.filter (hasTier t)
  if trs.isEmpty then st
  else
    let course := (dget details g.1).getD (m2DefaultCourse allBlocks)
    let needed :=
      min course.numSections ((trs.length + course.maxSize - 1) / course.maxSize)
    ((secRange needed).foldl
      (m2SecStep course.availableBlocks course.unavailableBlocks
        (lecturerOf ctl g.1) g.1) ([], st)).2

/-- The first pass of `milestone2.generate_schedule`: the priority tiers are
the outer loop, so a course with requests in several tiers is processed
several times. -/
def m2Phase1 (allBlocks : List String)
    (ctl : List ((String × Nat) × String))
    (details : List (String × CourseDetails))
    (groups : List (String × List Req)) : P1State :=
  priorityOrder.foldl
    (fun st t => groups.foldl (m2CourseTierP1 allBlocks ctl details t) st)
    ⟨[], [], []⟩

/-- State of the second pass (student-section assignment) of either engine.
`assignLog` is the append-log of roster insertions: the roster of a section
is the ordered sublist of students logged under its key. -/
structure P2State where
  student : List ((String × String) × String)
  assignLog : List ((String × Nat) × String)
  resolved : List Req
  unresolved : List Req
deriving DecidableEq, Repr

/-- Current roster size of a section. -/
def rosterLen (log : List ((String × Nat) × String)) (key : String × Nat) :
    Nat :=
  (log.filter (fun p => decide (p.1 = key))).length

/-- One candidate section for a request, shared by both engines: it must
have a truthy bound block, spare capacity, and a block the student is free
in. -/
def sectionTry (secBlocks : List ((String × Nat) × String)) (st : P2State)
    (c : String) (maxSize : Nat) (sid : String) (n : Nat) :
    Option (Nat × String) :=
  match dget secBlocks (c, n) with
  | none => none
  | some b =>
    if b = "" then none
    else if maxSize ≤ rosterLen st.assignLog (c, n) then none
    else if hasKey st.student (sid, b) then none
    else some (n, b)

/-- Scan a course's sections in index order for the first assignable one. -/
def findSection (secBlocks : List ((String × Nat) × String)) (st : P2State)
    (c : String) (numSections maxSize : Nat) (sid : String) :
    Option (Nat × String) :=
  firstSome (sectionTry secBlocks st c maxSize sid) (secRange numSections)

/-- The processing context of one request in the second pass: the course
code and the course parameters the enclosing loops computed for it. -/
structure Ctx where
  course : String
  numSections : Nat
  maxSize : Nat
  req : Req
deriving DecidableEq, Repr

/-- Second-pass treatment of one request, identical in both engines:
a falsy student id is immediately unresolved; otherwise the first
assignable section receives the student and the request is resolved, else
it is unresolved. -/
def processReq (secBlocks : List ((String × Nat) × String)) (st : P2State)
    (ctx : Ctx) : P2State :=
  if ctx.req.studentId = "" then
    { st with unresolved := st.unresolved ++ [ctx.req] }
  else
    match findSection secBlocks st ctx.course ctx.numSections ctx.maxSize
        ctx.req.studentId with
    | some nb =>
        { st with
            student := st.student ++
              [((ctx.req.studentId, nb.2), sectionInfo ctx.course nb.1)],
            assignLog := st.assignLog ++ [((ctx.course, nb.1), ctx.req.studentId)],
            resolved := st.resolved ++ [ctx.req] }
    | none => { st with unresolved := st.unresolved ++ [ctx.req] }

/-- The second pass of either engine is the left fold of `processReq` over
the flattened request-processing order of its loop nest. -/
def phase2Run (secBlocks : List ((String × Nat) × String)) (ctxs : List Ctx)
    (st : P2State) : P2State :=
  ctxs.foldl (processReq secBlocks) st

/-- One course's contribution to `simple_scheduler`'s second-pass
processing order: nothing if the course has no details (its requests were
already sent to `unresolved` by the first pass), otherwise its requests
sorted by priority, tagged with the course parameters. -/
def simpleCtxOf (details : List (String × CourseDetails))
    (g : String × List Req) : List Ctx :=
  match dget details g.1 with
  | none => []
  | some course =>
      (sortReqs g.2).map (fun r => ⟨g.1, course.numSections, course.maxSize, r⟩)

/-- The request-processing order of `simple_scheduler`'s second pass:
courses in group order, each course's requests sorted by priority. -/
def simpleCtx (details : List (String × CourseDetails))
    (groups : List (String × List Req)) : List Ctx :=
  catMap (simpleCtxOf details) groups

/-- One course's contribution to one tier of `milestone2`'s second pass:
the course's requests of that tier, in stored order, tagged with the course
parameters (an unknown course gets the `{}` defaults: 1 section, max size
25). -/
def m2CtxOf (details : List (String × CourseDetails)) (t : String)
    (g : String × List Req) : List Ctx :=
  let course := (dget details g.1).getD ⟨1, 25, [], []⟩
  (g.2.filter (hasTier t)).map
    (fun r => ⟨g.1, course.numSections, course.maxSize, r⟩)

/-- The request-processing order of `milestone2`'s second pass: priority
tiers are the outer loop, courses the middle loop, and within a course the
requests of the current tier in their stored order. -/
def m2Ctx (details : List (String × CourseDetails))
    (groups : List (String × List Req)) : List Ctx :=
  catMap (fun t => catMap (m2CtxOf details t) groups) priorityOrder

/-- The five outputs of `generate_schedule` that the claims mention. -/
structure EngineOut where
  secWrites : List ((String × Nat) × String)
  teacher : List ((String × String) × String)
  student : List ((String × String) × String)
  resolved : List Req
  unresolved : List Req
  assignLog : List ((String × Nat) × String)
deriving DecidableEq, Repr

/-- `simple_scheduler.generate_schedule`. -/
def simpleSchedule (allBlocks : List String)
    (ctl : List ((String × Nat) × String))
    (details : List (String × CourseDetails))
    (groups : List (String × List Req)) : EngineOut :=
  let p1 := simplePhase1 allBlocks ctl details groups
  let p2 := phase2Run p1.secWrites (simpleCtx details groups)
    ⟨[], [], [], p1.unresolvedP1⟩
  ⟨p1.secWrites, p1.teacher, p2.student, p2.resolved, p2.unresolved, p2.assignLog⟩

/-- `milestone2.generate_schedule`. -/
def m2Schedule (allBlocks : List String)
    (ctl : List ((String × Nat) × String))
    (details : List (String × CourseDetails))
    (groups : List (String × List Req)) : EngineOut :=
  let p1 := m2Phase1 allBlocks ctl details groups
  let p2 := phase2Run p1.secWrites (m2Ctx details groups) ⟨[], [], [], []⟩
  ⟨p1.secWrites, p1.teacher, p2.student, p2.resolved, p2.unresolved, p2.assignLog⟩

/-- The `simple_scheduler` pipeline: preprocessing followed by the engine,
with the fixed block list of `extract_rules_and_constraints`. -/
def simplePipeline (listings : List CourseListing) (chars : List CourseChar)
    (reqs : List Req) : EngineOut :=
  simpleSchedule simpleAllBlocks (buildCTL listings) (simpleDetailsOf chars)
    (groupRequests reqs)

/-- The `milestone2` pipeline: preprocessing followed by the engine.
`allBlocks` is `rules['all_blocks']`, the sorted union of the available
block lists computed by `extract_rules_and_constraints`. -/
def m2Pipeline (allBlocks : List String) (listings : List CourseListing)
    (chars : List CourseChar) (reqs : List Req) : EngineOut :=
  m2Schedule allBlocks (buildCTL listings) (m2DetailsOf allBlocks chars)
    (m2GroupsOf reqs)

/-- Number of occurrences of a request value in a list. -/
def rcount (x : Req) (l : List Req) : Nat :=
  (l.filter (fun r => decide (r = x))).length

/-- The capacity the `simple_scheduler` engine enforces for a course:
its stored maximum size; courses without details never get rostered. -/
def simpleMS (details : List (String × CourseDetails)) (c : String) : Nat :=
  match dget details c with
  | some co => co.maxSize
  | none => 0

/-- The capacity the `milestone2` engine enforces for a course: the stored
maximum size, or the `{}` default 25 for an unknown course. -/
def m2MS (details : List (String × CourseDetails)) (c : String) : Nat :=
  ((dget details c).getD ⟨1, 25, [], []⟩).maxSize

/-- The per-group selector of the requests the first pass of
`simple_scheduler` sends directly to `unresolved`. -/
def unknownSel (details : List (String × CourseDetails))
    (g : String × List Req) : List Req :=
  match dget details g.1 with
  | none => g.2
  | some _ => []

/-- Refinement-side first-fit pick, following the words of claim C5 and
spec section 4.1: the first block of the ordered global block list that is
(a) in the course's eligible set, (b) not in its excluded set, (c) not
already claimed by an earlier section of the same course, and (d) not
already occupied in that section's lecturer's schedule. -/
def specPickBlock (globalBlocks eligible excluded claimed : List String)
    (occupied : List (String × String)) (lect : String) : Option String :=
  firstSat
    (fun b => decide (b ∈ eligible) && !decide (b ∈ excluded) &&
      !decide (b ∈ claimed) && !decide ((lect, b) ∈ occupied)) globalBlocks

/-- Refinement-side assignment of one course's sections in increasing index
order: each section takes its `specPickBlock`; on success the block joins
the course's claimed set and the `(lecturer, block)` slot becomes occupied;
on failure the section stays unbound.  Returns the bound sections and the
updated occupied-slot set. -/
def specCourseAssign (gb elig excl : List String) (lectOf : Nat → String)
    (claimed : List String) (occ : List (String × String)) :
    List Nat → List (Nat × String) × List (String × String)
  | [] => ([], occ)
  | n :: ns =>
    match specPickBlock gb elig excl claimed occ (lectOf n) with
    | some b =>
      let rest := specCourseAssign gb elig excl lectOf (claimed ++ [b])
        (occ ++ [(lectOf n, b)]) ns
      ((n, b) :: rest.1, rest.2)
    | none => specCourseAssign gb elig excl lectOf claimed occ ns

/-- Refinement-side first pass over the grouped courses, threading the
occupied lecturer slots; courses without details bind nothing.  Returns the
section-block bindings in processing order together with the final
occupied-slot set. -/
def specPhase1 (gb : List String) (ctl : List ((String × Nat) × String))
    (details : List (String × CourseDetails))
    (occ : List (String × String)) :
    List (String × List Req) →
      List ((String × Nat) × String) × List (String × String)
  | [] => ([], occ)
  | g :: gs =>
    match dget details g.1 with
    | none => specPhase1 gb ctl details occ gs
    | some course =>
      let r := specCourseAssign gb (effAvail gb course.availableBlocks)
        course.unavailableBlocks (lecturerOf ctl g.1) [] occ
        (secRange course.numSections)
      let rest := specPhase1 gb ctl details r.2 gs
      (r.1.map (fun p => ((g.1, p.1), p.2)) ++ rest.1, rest.2)

/-- Course data of the claim C8 scenario: course BIB9 with 2 sections,
maximum size 2, eligible blocks 1A and 1B, nothing excluded. -/
def c8Chars : List CourseChar := [⟨"BIB9", 2, 2, some ["1A", "1B"], some []⟩]

/-- The five Required requests S1..S5 of the claim C8 scenario. -/
def c8Reqs : List Req :=
  [⟨"S1", "BIB9", some "Required"⟩, ⟨"S2", "BIB9", some "Required"⟩,
   ⟨"S3", "BIB9", some "Required"⟩, ⟨"S4", "BIB9", some "Required"⟩,
   ⟨"S5", "BIB9", some "Required"⟩]

/-- Course data of the claim C1 counterexample input. -/
def c1Chars : List CourseChar := [⟨"C", 1, 25, some ["1A"], some []⟩]

/-- A request whose `Type` is none of the three priority tiers. -/
def c1Req : Req := ⟨"S", "C", some "X"⟩

/-- Two courses of the claim C2 counterexample input, grouped in the order
A before B. -/
def c2Chars : List CourseChar :=
  [⟨"A", 1, 25, some ["1A"], some []⟩, ⟨"B", 1, 25, some ["1A"], some []⟩]

/-- One student with a Requested request for the earlier course A and a
Required request for the later course B; both courses can only use block
1A. -/
def c2Reqs : List Req :=
  [⟨"S", "A", some "Requested"⟩, ⟨"S", "B", some "Required"⟩]

/-- A Required request for a course code with no Course record. -/
def c3Req : Req := ⟨"S", "X", some "Required"⟩

/-- Course data of the claim C4 counterexample input: one course with one
section, maximum size 1 and two eligible blocks. -/
def c4Chars : List CourseChar := [⟨"C", 1, 1, some ["1A", "1B"], some []⟩]

/-- A Required and a Requested request for the claim C4 counterexample. -/
def c4Reqs : List Req :=
  [⟨"S1", "C", some "Required"⟩, ⟨"S2", "C", some "Requested"⟩]

/-- Course data of the claim C5 counterexample input: the course's
available-block list is ordered 1B before 1A, against the global order. -/
def c5Chars : List CourseChar := [⟨"C", 1, 25, some ["1B", "1A"], some []⟩]

/-- One Required request for the claim C5 counterexample. -/
def c5Reqs : List Req := [⟨"S", "C", some "Required"⟩]

/-- A request with an empty (falsy) course code, for claim C9. -/
def c9Req : Req := ⟨"S", "", some "Required"⟩

/-- A course whose available-block list is present but empty, for
claim C10. -/
def c10Course : CourseDetails := ⟨1, 25, [], []⟩

/-! Basic lemmas about the dict and list helpers. -/

theorem dget_append_single {k v : Type} [DecidableEq k]
    (l : List (k × v)) (p : k × v) (key : k) :
    dget (l ++ [p]) key = if p.1 = key then some p.2 else dget l key := by
  induction l with
  | nil => simp [dget]
  | cons q l ih =>
    by_cases h : p.1 = key
    · simp [dget, ih, h]
    · simp [dget, ih, h]

theorem hasKey_eq_true {k v : Type} [DecidableEq k]
    (l : List (k × v)) (key : k) :
    hasKey l key = true ↔ key ∈ l.map Prod.fst := by
  simp [hasKey, List.any_eq_true, List.mem_map]

theorem hasKey_eq_false {k v : Type} [DecidableEq k]
    (l : List (k × v)) (key : k) :
    hasKey l key = false ↔ key ∉ l.map Prod.fst := by
  rw [← hasKey_eq_true]
  cases h : hasKey l key <;> simp [h]

theorem firstSat_congr {a : Type} (p q : a → Bool) (l : List a)
    (h : ∀ x, p x = q x) : firstSat p l = firstSat q l := by
  induction l with
  | nil => rfl
  | cons x l ih => simp [firstSat, h, ih]

theorem firstSome_some {a b : Type} (f : a → Option b) (l : List a) (y : b)
    (h : firstSome f l = some y) : ∃ x ∈ l, f x = some y := by
  induction l with
  | nil => simp [firstSome] at h
  | cons x l ih =>
    rw [firstSome] at h
    cases hx : f x with
    | some z =>
      rw [hx] at h
      replace h : z = y := by simpa using h
      exact ⟨x, List.mem_cons_self x l, by rw [hx, h]⟩
    | none =>
      rw [hx] at h
      replace h : firstSome f l = some y := h
      obtain ⟨w, hw, hfw⟩ := ih h
      exact ⟨w, List.mem_cons_of_mem x hw, hfw⟩

theorem mem_catMap {a b : Type} (f : a → List b) (l : List a) (y : b) :
    y ∈ catMap f l ↔ ∃ x ∈ l, y ∈ f x := by
  induction l with
  | nil => simp [catMap]
  | cons x l ih => simp [catMap, ih]

theorem map_catMap {a b c : Type} (g : b → c) (f : a → List b) (l : List a) :
    (catMap f l).map g = catMap (fun x => (f x).map g) l := by
  induction l with
  | nil => rfl
  | cons x l ih => simp [catMap, ih]

theorem secRange_mem_le (n m : Nat) (h : m ∈ secRange n) : m ≤ n := by
  induction n with
  | zero => simp [secRange] at h
  | succ k ih =>
    simp [secRange] at h
    rcases h with h | h
    · exact le_trans (ih h) (Nat.le_succ k)
    · omega

theorem secRange_nodup (n : Nat) : (secRange n).Nodup := by
  induction n with
  | zero => simp [secRange]
  | succ k ih =>
    rw [secRange]
    refine List.Nodup.append ih (List.nodup_singleton _) ?_
    intro m hm hm2
    rw [List.mem_singleton] at hm2
    subst hm2
    exact absurd (secRange_mem_le k _ hm) (by omega)

/-! Request-counting lemmas (`rcount x l` is the number of occurrences of the
request value `x` in `l`; partition claims are stated with it). -/


theorem rcount_nil (x : Req) : rcount x [] = 0 := rfl

theorem rcount_append (x : Req) (l₁ l₂ : List Req) :
    rcount x (l₁ ++ l₂) = rcount x l₁ + rcount x l₂ := by
  simp [rcount, List.filter_append]

theorem rcount_cons (x r : Req) (l : List Req) :
    rcount x (r :: l) = (if r = x then 1 else 0) + rcount x l := by
  by_cases h : r = x <;> simp [rcount, List.filter_cons, h, Nat.add_comm]

theorem rcount_singleton (x r : Req) :
    rcount x [r] = if r = x then 1 else 0 := by
  by_cases h : r = x <;> simp [rcount, h]

theorem rcount_eq_zero (x : Req) (l : List Req) :
    rcount x l = 0 ↔ x ∉ l := by
  induction l with
  | nil => simp [rcount_nil]
  | cons r l ih =>
    rw [rcount_cons]
    by_cases h : r = x
    · subst h
      simp
    · simp [h, ih, Ne.symm h]

theorem rcount_filter (x : Req) (p : Req → Bool) (l : List Req) :
    rcount x (l.filter p) = if p x = true then rcount x l else 0 := by
  induction l with
  | nil => simp [rcount_nil]
  | cons r l ih =>
    by_cases hp : p r
    · rw [List.filter_cons_of_pos hp, rcount_cons, ih, rcount_cons]
      by_cases hr : r = x
      · subst hr
        simp [hp]
      · simp [hr]
    · rw [List.filter_cons_of_neg (by simpa using hp), ih, rcount_cons]
      by_cases hr : r = x
      · subst hr
        simp [hp]
      · simp [hr]

theorem prioKey_cases (r : Req) :
    prioKey r = 0 ∨ prioKey r = 1 ∨ prioKey r = 2 ∨ prioKey r = 999 := by
  simp only [prioKey]
  split_ifs <;> simp

theorem rcount_sortReqs (x : Req) (rs : List Req) :
    rcount x (sortReqs rs) = rcount x rs := by
  simp only [sortReqs, rcount_append, rcount_filter]
  rcases prioKey_cases x with h | h | h | h <;> rw [h] <;> simp

/-! Second-pass fold lemmas, shared by both engines. -/

theorem processReq_partition (sb : List ((String × Nat) × String))
    (st : P2State) (ctx : Ctx) (x : Req) :
    rcount x (processReq sb st ctx).resolved +
      rcount x (processReq sb st ctx).unresolved =
    rcount x st.resolved + rcount x st.unresolved + rcount x [ctx.req] := by
  rw [processReq]
  by_cases h : ctx.req.studentId = ""
  · simp [h, rcount_append]
    omega
  · rw [if_neg h]
    cases findSection sb st ctx.course ctx.numSections ctx.maxSize
        ctx.req.studentId with
    | some nb => simp [rcount_append]; omega
    | none => simp [rcount_append]; omega

theorem phase2Run_partition (sb : List ((String × Nat) × String))
    (ctxs : List Ctx) (st : P2State) (x : Req) :
    rcount x (phase2Run sb ctxs st).resolved +
      rcount x (phase2Run sb ctxs st).unresolved =
    rcount x st.resolved + rcount x st.unresolved +
      rcount x (ctxs.map Ctx.req) := by
  induction ctxs generalizing st with
  | nil => simp [phase2Run, rcount_nil]
  | cons c cs ih =>
    rw [phase2Run, List.foldl_cons]
    have h1 := ih (processReq sb st c)
    rw [phase2Run] at h1
    rw [h1, processReq_partition sb st c x, List.map_cons, rcount_cons,
      rcount_cons, rcount_nil]
    omega

theorem phase2Run_resolved_mem (sb : List ((String × Nat) × String))
    (ctxs : List Ctx) (st : P2State) (q : Req)
    (h : q ∈ (phase2Run sb ctxs st).resolved) :
    q ∈ st.resolved ∨ q ∈ ctxs.map Ctx.req := by
  induction ctxs generalizing st with
  | nil => exact Or.inl h
  | cons c cs ih =>
    rw [phase2Run, List.foldl_cons] at h
    rcases ih (processReq sb st c) h with h2 | h2
    · rw [processReq] at h2
      by_cases hs : c.req.studentId = ""
      · rw [if_pos hs] at h2
        exact Or.inl h2
      · rw [if_neg hs] at h2
        cases hfs : findSection sb st c.course c.numSections c.maxSize
            c.req.studentId with
        | some nb =>
          rw [hfs] at h2
          simp only [List.mem_append, List.mem_singleton] at h2
          rcases h2 with h2 | h2
          · exact Or.inl h2
          · subst h2
            exact Or.inr (by simp)
        | none =>
          rw [hfs] at h2
          exact Or.inl h2
    · exact Or.inr (List.mem_cons_of_mem _ h2)

theorem phase2Run_assignLog_mem (sb : List ((String × Nat) × String))
    (ctxs : List Ctx) (st : P2State) (p : (String × Nat) × String)
    (h : p ∈ (phase2Run sb ctxs st).assignLog) :
    p ∈ st.assignLog ∨ ∃ c ∈ ctxs, p.1.1 = c.course := by
  induction ctxs generalizing st with
  | nil => exact Or.inl h
  | cons c cs ih =>
    rw [phase2Run, List.foldl_cons] at h
    rcases ih (processReq sb st c) h with h2 | h2
    · rw [processReq] at h2
      by_cases hs : c.req.studentId = ""
      · rw [if_pos hs] at h2
        exact Or.inl h2
      · rw [if_neg hs] at h2
        cases hfs : findSection sb st c.course c.numSections c.maxSize
            c.req.studentId with
        | some nb =>
          rw [hfs] at h2
          simp only [List.mem_append, List.mem_singleton] at h2
          rcases h2 with h2 | h2
          · exact Or.inl h2
          · subst h2
            exact Or.inr ⟨c, List.mem_cons_self c cs, rfl⟩
        | none =>
          rw [hfs] at h2
          exact Or.inl h2
    · obtain ⟨c2, hc2, he⟩ := h2
      exact Or.inr ⟨c2, List.mem_cons_of_mem c hc2, he⟩

theorem rosterLen_append_single (log : List ((String × Nat) × String))
    (p : (String × Nat) × String) (key : String × Nat) :
    rosterLen (log ++ [p]) key =
      rosterLen log key + if p.1 = key then 1 else 0 := by
  by_cases h : p.1 = key <;> simp [rosterLen, List.filter_append, h]

theorem sectionTry_some (sb : List ((String × Nat) × String)) (st : P2State)
    (c : String) (ms : Nat) (sid : String) (n : Nat) (nb : Nat × String)
    (h : sectionTry sb st c ms sid n = some nb) :
    nb.1 = n ∧ rosterLen st.assignLog (c, n) < ms ∧
      hasKey st.student (sid, nb.2) = false := by
  rw [sectionTry] at h
  split at h
  · exact absurd h (by simp)
  · rename_i b hb
    split_ifs at h with h1 h2 h3
    replace h : (n, b) = nb := by simpa using h
    subst h
    exact ⟨rfl, by omega, by simpa using h3⟩

theorem findSection_some (sb : List ((String × Nat) × String)) (st : P2State)
    (c : String) (ns ms : Nat) (sid : String) (nb : Nat × String)
    (h : findSection sb st c ns ms sid = some nb) :
    rosterLen st.assignLog (c, nb.1) < ms ∧
      hasKey st.student (sid, nb.2) = false := by
  obtain ⟨n, _, hn⟩ := firstSome_some _ _ _ h
  obtain ⟨he, h2, h3⟩ := sectionTry_some sb st c ms sid n nb hn
  subst he
  exact ⟨h2, h3⟩

theorem processReq_capacity (sb : List ((String × Nat) × String))
    (st : P2State) (ctx : Ctx) (msOf : String → Nat)
    (hctx : ctx.maxSize = msOf ctx.course)
    (hst : ∀ key : String × Nat, rosterLen st.assignLog key ≤ msOf key.1) :
    ∀ key : String × Nat,
      rosterLen (processReq sb st ctx).assignLog key ≤ msOf key.1 := by
  intro key
  rw [processReq]
  by_cases h : ctx.req.studentId = ""
  · rw [if_pos h]
    exact hst key
  · rw [if_neg h]
    cases hfs : findSection sb st ctx.course ctx.numSections ctx.maxSize
        ctx.req.studentId with
    | some nb =>
      obtain ⟨hlt, _⟩ := findSection_some _ _ _ _ _ _ _ hfs
      simp only [rosterLen_append_single]
      by_cases hk : ((ctx.course, nb.1) : String × Nat) = key
      · rw [if_pos hk, ← hk]
        simpa [hctx] using hlt
      · rw [if_neg hk]
        simpa using hst key
    | none => exact hst key

theorem phase2Run_capacity (sb : List ((String × Nat) × String))
    (msOf : String → Nat) :
    ∀ (ctxs : List Ctx) (st : P2State),
      (∀ c ∈ ctxs, c.maxSize = msOf c.course) →
      (∀ key : String × Nat, rosterLen st.assignLog key ≤ msOf key.1) →
      ∀ key : String × Nat,
        rosterLen (phase2Run sb ctxs st).assignLog key ≤ msOf key.1 := by
  intro ctxs
  induction ctxs with
  | nil => exact fun st _ hst => hst
  | cons c cs ih =>
    intro st hctx hst
    exact ih (processReq sb st c)
      (fun d hd => hctx d (List.mem_cons_of_mem c hd))
      (processReq_capacity sb st c msOf (hctx c (List.mem_cons_self c cs)) hst)

theorem processReq_student_nodup (sb : List ((String × Nat) × String))
    (st : P2State) (ctx : Ctx)
    (hst : (st.student.map Prod.fst).Nodup) :
    ((processReq sb st ctx).student.map Prod.fst).Nodup := by
  rw [processReq]
  by_cases h : ctx.req.studentId = ""
  · rw [if_pos h]
    exact hst
  · rw [if_neg h]
    cases hfs : findSection sb st ctx.course ctx.numSections ctx.maxSize
        ctx.req.studentId with
    | some nb =>
      obtain ⟨_, hfree⟩ := findSection_some _ _ _ _ _ _ _ hfs
      rw [hasKey_eq_false] at hfree
      simp only [List.map_append, List.map_cons, List.map_nil]
      rw [List.nodup_append]
      refine ⟨hst, List.nodup_singleton _, ?_⟩
      intro a ha hb2
      rw [List.mem_singleton] at hb2
      subst hb2
      exact hfree ha
    | none => exact hst

theorem phase2Run_student_nodup (sb : List ((String × Nat) × String))
    (ctxs : List Ctx) (st : P2State)
    (hst : (st.student.map Prod.fst).Nodup) :
    ((phase2Run sb ctxs st).student.map Prod.fst).Nodup := by
  induction ctxs generalizing st with
  | nil => exact hst
  | cons c cs ih =>
    rw [phase2Run, List.foldl_cons]
    exact ih (processReq sb st c) (processReq_student_nodup sb st c hst)

/-! Lemmas about the request-processing orders and the grouping. -/


theorem sortReqs_subset (rs : List Req) (r : Req) (h : r ∈ sortReqs rs) :
    r ∈ rs := by
  rw [sortReqs] at h
  have hf : ∀ (p : Req → Bool), r ∈ rs.filter p → r ∈ rs :=
    fun p hp => (List.mem_filter.mp hp).1
  rcases List.mem_append.mp h with h1 | h1
  · rcases List.mem_append.mp h1 with h2 | h2
    · rcases List.mem_append.mp h2 with h3 | h3
      · exact hf _ h3
      · exact hf _ h3
    · exact hf _ h2
  · exact hf _ h1

theorem simpleCtxOf_none (details : List (String × CourseDetails))
    (g : String × List Req) (hd : dget details g.1 = none) :
    simpleCtxOf details g = [] := by
  rw [simpleCtxOf, hd]

theorem simpleCtxOf_some (details : List (String × CourseDetails))
    (g : String × List Req) (co : CourseDetails)
    (hd : dget details g.1 = some co) :
    simpleCtxOf details g =
      (sortReqs g.2).map (fun r => ⟨g.1, co.numSections, co.maxSize, r⟩) := by
  rw [simpleCtxOf, hd]

theorem simpleCtx_mem (details : List (String × CourseDetails))
    (groups : List (String × List Req)) (ctx : Ctx)
    (h : ctx ∈ simpleCtx details groups) :
    ∃ g ∈ groups, ∃ co, dget details g.1 = some co ∧ ctx.course = g.1 ∧
      ctx.numSections = co.numSections ∧ ctx.maxSize = co.maxSize ∧
      ctx.req ∈ g.2 := by
  rw [simpleCtx] at h
  obtain ⟨g, hg, hmem⟩ := (mem_catMap _ _ _).mp h
  cases hd : dget details g.1 with
  | none =>
    rw [simpleCtxOf_none details g hd] at hmem
    exact absurd hmem (List.not_mem_nil ctx)
  | some co =>
    rw [simpleCtxOf_some details g co hd] at hmem
    simp only [List.mem_map] at hmem
    obtain ⟨r, hr, he⟩ := hmem
    subst he
    exact ⟨g, hg, co, hd, rfl, rfl, rfl, sortReqs_subset _ _ hr⟩

theorem m2Ctx_mem (details : List (String × CourseDetails))
    (groups : List (String × List Req)) (ctx : Ctx)
    (h : ctx ∈ m2Ctx details groups) :
    ∃ t ∈ priorityOrder, ∃ g ∈ groups, ctx.course = g.1 ∧
      ctx.numSections = ((dget details g.1).getD ⟨1, 25, [], []⟩).numSections ∧
      ctx.maxSize = ((dget details g.1).getD ⟨1, 25, [], []⟩).maxSize ∧
      ctx.req ∈ g.2 ∧ hasTier t ctx.req = true := by
  rw [m2Ctx] at h
  obtain ⟨t, ht, h2⟩ := (mem_catMap _ _ _).mp h
  obtain ⟨g, hg, h3⟩ := (mem_catMap _ _ _).mp h2
  simp only [m2CtxOf, List.mem_map, List.mem_filter] at h3
  obtain ⟨r, ⟨hr, hrt⟩, he⟩ := h3
  subst he
  exact ⟨t, ht, g, hg, rfl, rfl, rfl, hr, hrt⟩

theorem catMap_congr {a b : Type} (f g : a → List b) (l : List a)
    (h : ∀ x ∈ l, f x = g x) : catMap f l = catMap g l := by
  induction l with
  | nil => rfl
  | cons x l ih =>
    rw [catMap, catMap, h x (List.mem_cons_self x l),
      ih (fun y hy => h y (List.mem_cons_of_mem x hy))]

theorem m2CtxOf_req (details : List (String × CourseDetails)) (t : String)
    (g : String × List Req) :
    (m2CtxOf details t g).map Ctx.req = g.2.filter (hasTier t) := by
  rw [m2CtxOf]
  generalize g.2.filter (hasTier t) = l
  induction l with
  | nil => rfl
  | cons y l ihl =>
    simp only [List.map_cons]
    rw [ihl]

theorem m2Ctx_reqs (details : List (String × CourseDetails))
    (groups : List (String × List Req)) :
    (m2Ctx details groups).map Ctx.req =
      catMap (fun t => catMap (fun g => g.2.filter (hasTier t)) groups)
        priorityOrder := by
  rw [m2Ctx, map_catMap]
  refine catMap_congr _ _ _ (fun t _ => ?_)
  rw [map_catMap]
  exact catMap_congr _ _ _ (fun g _ => m2CtxOf_req details t g)

theorem simpleCtxOf_req_count (x : Req)
    (details : List (String × CourseDetails)) (g : String × List Req)
    (co : CourseDetails) (hd : dget details g.1 = some co) :
    rcount x ((simpleCtxOf details g).map Ctx.req) = rcount x g.2 := by
  rw [simpleCtxOf_some details g co hd]
  have : (List.map Ctx.req ((sortReqs g.2).map
      (fun r => Ctx.mk g.1 co.numSections co.maxSize r))) = sortReqs g.2 := by
    generalize sortReqs g.2 = l
    induction l with
    | nil => rfl
    | cons y l ihl =>
      simp only [List.map_cons]
      rw [ihl]
  rw [this, rcount_sortReqs]


theorem unknownSel_none (details : List (String × CourseDetails))
    (g : String × List Req) (hd : dget details g.1 = none) :
    unknownSel details g = g.2 := by
  rw [unknownSel, hd]

theorem unknownSel_some (details : List (String × CourseDetails))
    (g : String × List Req) (co : CourseDetails)
    (hd : dget details g.1 = some co) :
    unknownSel details g = [] := by
  rw [unknownSel, hd]

theorem simpleCtx_reqs_count (x : Req) (details : List (String × CourseDetails))
    (groups : List (String × List Req)) :
    rcount x (catMap (unknownSel details) groups) +
      rcount x ((simpleCtx details groups).map Ctx.req) =
    rcount x (catMap (fun g => g.2) groups) := by
  induction groups with
  | nil => simp [catMap, simpleCtx, rcount_nil]
  | cons g gs ih =>
    rw [simpleCtx, catMap, catMap, catMap, List.map_append, rcount_append,
      rcount_append, rcount_append]
    rw [simpleCtx] at ih
    cases hd : dget details g.1 with
    | none =>
      rw [unknownSel_none details g hd, simpleCtxOf_none details g hd]
      simp only [List.map_nil, rcount_nil]
      omega
    | some co =>
      rw [unknownSel_some details g co hd, rcount_nil,
        simpleCtxOf_req_count x details g co hd]
      omega

theorem catMap_filter_count (x : Req) (t : String)
    (groups : List (String × List Req)) :
    rcount x (catMap (fun g => g.2.filter (hasTier t)) groups) =
      if hasTier t x = true then rcount x (catMap (fun g => g.2) groups)
      else 0 := by
  induction groups with
  | nil => by_cases h : hasTier t x = true <;> simp [catMap, rcount_nil, h]
  | cons g gs ih =>
    rw [catMap, catMap, rcount_append, rcount_append, ih, rcount_filter]
    by_cases h : hasTier t x = true <;> simp [h]

/-! First-pass bookkeeping lemmas. -/

theorem simpleP1Step_none (allBlocks : List String)
    (ctl : List ((String × Nat) × String))
    (details : List (String × CourseDetails)) (st : P1State)
    (g : String × List Req) (hd : dget details g.1 = none) :
    simpleP1Step allBlocks ctl details st g =
      { st with unresolvedP1 := st.unresolvedP1 ++ g.2 } := by
  rw [simpleP1Step, hd]

theorem simpleP1Step_some (allBlocks : List String)
    (ctl : List ((String × Nat) × String))
    (details : List (String × CourseDetails)) (st : P1State)
    (g : String × List Req) (co : CourseDetails)
    (hd : dget details g.1 = some co) :
    simpleP1Step allBlocks ctl details st g =
      simpleCourseP1 allBlocks ctl g.1 co st := by
  rw [simpleP1Step, hd]

theorem simpleP1Go_cons (allBlocks : List String)
    (ctl : List ((String × Nat) × String))
    (details : List (String × CourseDetails)) (st : P1State)
    (g : String × List Req) (gs : List (String × List Req)) :
    simpleP1Go allBlocks ctl details (g :: gs) st =
      simpleP1Go allBlocks ctl details gs
        (simpleP1Step allBlocks ctl details st g) :=
  rfl

theorem simpleSecStep_unresolved (allBlocks avail unavail : List String)
    (lectOf : Nat → String) (c : String) (p : List String × P1State)
    (n : Nat) :
    ((simpleSecStep allBlocks avail unavail lectOf c p n).2).unresolvedP1 =
      p.2.unresolvedP1 := by
  simp only [simpleSecStep]
  split <;> rfl

theorem foldl_secstep_unresolved {a : Type}
    (f : (List String × P1State) → a → List String × P1State)
    (hf : ∀ p x, ((f p x).2).unresolvedP1 = p.2.unresolvedP1) :
    ∀ (l : List a) (p : List String × P1State),
      ((l.foldl f p).2).unresolvedP1 = p.2.unresolvedP1 := by
  intro l
  induction l with
  | nil => intro p; rfl
  | cons x l ih =>
    intro p
    rw [List.foldl_cons, ih, hf]

theorem simpleCourseP1_unresolved (allBlocks : List String)
    (ctl : List ((String × Nat) × String)) (c : String)
    (course : CourseDetails) (st : P1State) :
    (simpleCourseP1 allBlocks ctl c course st).unresolvedP1 =
      st.unresolvedP1 := by
  rw [simpleCourseP1]
  exact foldl_secstep_unresolved _
    (fun p n => simpleSecStep_unresolved allBlocks _ _ _ c p n) _ ([], st)

theorem simpleP1Go_unresolved (allBlocks : List String)
    (ctl : List ((String × Nat) × String))
    (details : List (String × CourseDetails)) :
    ∀ (groups : List (String × List Req)) (st : P1State),
      (simpleP1Go allBlocks ctl details groups st).unresolvedP1 =
        st.unresolvedP1 ++ catMap (unknownSel details) groups := by
  intro groups
  induction groups with
  | nil => intro st; simp [simpleP1Go, catMap]
  | cons g gs ih =>
    intro st
    rw [simpleP1Go_cons, ih, catMap]
    cases hd : dget details g.1 with
    | none =>
      rw [simpleP1Step_none allBlocks ctl details st g hd,
        unknownSel_none details g hd, List.append_assoc]
    | some co =>
      rw [simpleP1Step_some allBlocks ctl details st g co hd,
        simpleCourseP1_unresolved, unknownSel_some details g co hd,
        List.nil_append]

theorem simpleSecStep_writes (allBlocks avail unavail : List String)
    (lectOf : Nat → String) (c : String) (p : List String × P1State)
    (n : Nat) :
    ((simpleSecStep allBlocks avail unavail lectOf c p n).2).secWrites =
        p.2.secWrites ∨
      ∃ b, ((simpleSecStep allBlocks avail unavail lectOf c p n).2).secWrites =
        p.2.secWrites ++ [((c, n), b)] := by
  simp only [simpleSecStep]
  split
  · exact Or.inr ⟨_, rfl⟩
  · exact Or.inl rfl

theorem simpleSecFold_writes (allBlocks avail unavail : List String)
    (lectOf : Nat → String) (c : String) :
    ∀ (ns : List Nat) (p : List String × P1State),
      ∃ w, ((ns.foldl (simpleSecStep allBlocks avail unavail lectOf c) p).2).secWrites
          = p.2.secWrites ++ w ∧
        List.Sublist (w.map Prod.fst) (ns.map (fun n => (c, n))) := by
  intro ns
  induction ns with
  | nil => intro p; exact ⟨[], by simp, by simp⟩
  | cons n ns ih =>
    intro p
    rw [List.foldl_cons]
    obtain ⟨w, hw, hsub⟩ := ih (simpleSecStep allBlocks avail unavail lectOf c p n)
    rcases simpleSecStep_writes allBlocks avail unavail lectOf c p n with
      he | ⟨b, he⟩
    · exact ⟨w, by rw [hw, he], List.Sublist.cons _ hsub⟩
    · refine ⟨((c, n), b) :: w, ?_, ?_⟩
      · rw [hw, he, List.append_assoc, List.singleton_append]
      · simp only [List.map_cons]
        exact List.Sublist.cons₂ _ hsub

theorem simpleCourseP1_writes (allBlocks : List String)
    (ctl : List ((String × Nat) × String)) (c : String)
    (course : CourseDetails) (st : P1State) :
    ∃ w, (simpleCourseP1 allBlocks ctl c course st).secWrites =
        st.secWrites ++ w ∧
      (w.map Prod.fst).Nodup ∧ ∀ k ∈ w.map Prod.fst, k.1 = c := by
  rw [simpleCourseP1]
  obtain ⟨w, hw, hsub⟩ := simpleSecFold_writes allBlocks
    (effAvail allBlocks course.availableBlocks) course.unavailableBlocks
    (lecturerOf ctl c) c (secRange course.numSections) ([], st)
  refine ⟨w, hw, ?_, ?_⟩
  · refine List.Nodup.sublist hsub ?_
    exact List.Nodup.map
      (fun a b h => by simpa using (Prod.mk.injEq c a c b).mp h)
      (secRange_nodup course.numSections)
  · intro k hk
    obtain ⟨n, _, he⟩ := List.mem_map.mp (hsub.subset hk)
    rw [← he]

theorem simpleP1Go_writes (allBlocks : List String)
    (ctl : List ((String × Nat) × String))
    (details : List (String × CourseDetails)) :
    ∀ (groups : List (String × List Req)) (st : P1State),
      ∃ w, (simpleP1Go allBlocks ctl details groups st).secWrites =
          st.secWrites ++ w ∧
        ((groups.map Prod.fst).Nodup → (w.map Prod.fst).Nodup) ∧
        ∀ k ∈ w.map Prod.fst, k.1 ∈ groups.map Prod.fst := by
  intro groups
  induction groups with
  | nil => intro st; exact ⟨[], by simp [simpleP1Go], fun _ => by simp, by simp⟩
  | cons g gs ih =>
    intro st
    rw [simpleP1Go_cons]
    cases hd : dget details g.1 with
    | none =>
      obtain ⟨w, hw, hnd, hmem⟩ := ih (simpleP1Step allBlocks ctl details st g)
      refine ⟨w, ?_, ?_, ?_⟩
      · rw [hw, simpleP1Step_none allBlocks ctl details st g hd]
      · intro h
        rw [List.map_cons, List.nodup_cons] at h
        exact hnd h.2
      · intro k hk
        rw [List.map_cons]
        exact List.mem_cons_of_mem _ (hmem k hk)
    | some co =>
      obtain ⟨w₂, hw₂, hnd₂, hmem₂⟩ := ih (simpleP1Step allBlocks ctl details st g)
      obtain ⟨w₁, hw₁, hnd₁, hc₁⟩ := simpleCourseP1_writes allBlocks ctl g.1 co st
      refine ⟨w₁ ++ w₂, ?_, ?_, ?_⟩
      · rw [hw₂, simpleP1Step_some allBlocks ctl details st g co hd, hw₁,
          List.append_assoc]
      · intro h
        rw [List.map_cons, List.nodup_cons] at h
        rw [List.map_append, List.nodup_append]
        refine ⟨hnd₁, hnd₂ h.2, ?_⟩
        intro k hk₁ hk₂
        have e1 : k.1 = g.1 := hc₁ k hk₁
        have e2 : k.1 ∈ gs.map Prod.fst := hmem₂ k hk₂
        rw [e1] at e2
        exact h.1 e2
      · intro k hk
        rw [List.map_append, List.mem_append] at hk
        rw [List.map_cons]
        rcases hk with hk | hk
        · exact List.mem_cons.mpr (Or.inl (hc₁ k hk))
        · exact List.mem_cons_of_mem _ (hmem₂ k hk)

/-! Grouping lemmas: the request groups built by `preprocess_data` have
non-empty, pairwise-distinct course codes, all members carry their group's
code, and flattening the groups recovers exactly the requests with a truthy
course code. -/

theorem addToGroup_inv (acc : List (String × List Req)) (r : Req)
    (hacc : ∀ g ∈ acc, g.1 ≠ "" ∧ ∀ q ∈ g.2, q.courseCode = g.1)
    (hr : r.courseCode ≠ "") :
    ∀ g ∈ addToGroup acc r, g.1 ≠ "" ∧ ∀ q ∈ g.2, q.courseCode = g.1 := by
  induction acc with
  | nil =>
    intro g hg
    rw [addToGroup, List.mem_singleton] at hg
    subst hg
    exact ⟨hr, fun q hq => by rw [List.mem_singleton] at hq; rw [hq]⟩
  | cons g0 gs ih =>
    intro g hg
    rw [addToGroup] at hg
    by_cases h : g0.1 = r.courseCode
    · rw [if_pos h] at hg
      rcases List.mem_cons.mp hg with hg | hg
      · subst hg
        obtain ⟨h1, h2⟩ := hacc g0 (List.mem_cons_self g0 gs)
        refine ⟨h1, fun q hq => ?_⟩
        rcases List.mem_append.mp hq with hq | hq
        · exact h2 q hq
        · rw [List.mem_singleton] at hq
          rw [hq, h]
      · exact hacc g (List.mem_cons_of_mem g0 hg)
    · rw [if_neg h] at hg
      rcases List.mem_cons.mp hg with hg | hg
      · subst hg
        exact hacc g (List.mem_cons_self g gs)
      · exact ih (fun g2 hg2 => hacc g2 (List.mem_cons_of_mem g0 hg2)) g hg

theorem groupRequests_inv (reqs : List Req) :
    ∀ g ∈ groupRequests reqs, g.1 ≠ "" ∧ ∀ q ∈ g.2, q.courseCode = g.1 := by
  rw [groupRequests]
  have aux : ∀ (rs : List Req) (acc : List (String × List Req)),
      (∀ g ∈ acc, g.1 ≠ "" ∧ ∀ q ∈ g.2, q.courseCode = g.1) →
      ∀ g ∈ rs.foldl
        (fun acc r => if r.courseCode = "" then acc else addToGroup acc r) acc,
        g.1 ≠ "" ∧ ∀ q ∈ g.2, q.courseCode = g.1 := by
    intro rs
    induction rs with
    | nil => intro acc hacc; exact hacc
    | cons r rs ih =>
      intro acc hacc
      rw [List.foldl_cons]
      by_cases h : r.courseCode = ""
      · rw [if_pos h]
        exact ih acc hacc
      · rw [if_neg h]
        exact ih (addToGroup acc r) (addToGroup_inv acc r hacc h)
  exact aux reqs [] (by simp)

theorem addToGroup_keys (acc : List (String × List Req)) (r : Req) :
    (addToGroup acc r).map Prod.fst =
      if r.courseCode ∈ acc.map Prod.fst then acc.map Prod.fst
      else acc.map Prod.fst ++ [r.courseCode] := by
  induction acc with
  | nil => simp [addToGroup]
  | cons g gs ih =>
    rw [addToGroup]
    by_cases h : g.1 = r.courseCode
    · rw [if_pos h, List.map_cons, List.map_cons,
        if_pos (by rw [List.mem_cons]; exact Or.inl h.symm)]
    · rw [if_neg h, List.map_cons, List.map_cons, ih]
      by_cases h2 : r.courseCode ∈ gs.map Prod.fst
      · rw [if_pos h2, if_pos (by rw [List.mem_cons]; exact Or.inr h2)]
      · rw [if_neg h2,
          if_neg (by
            rw [List.mem_cons]
            rintro (he | he)
            · exact h he.symm
            · exact h2 he),
          List.cons_append]

theorem groupRequests_keys_nodup (reqs : List Req) :
    ((groupRequests reqs).map Prod.fst).Nodup := by
  rw [groupRequests]
  have aux : ∀ (rs : List Req) (acc : List (String × List Req)),
      (acc.map Prod.fst).Nodup →
      ((rs.foldl
        (fun acc r => if r.courseCode = "" then acc else addToGroup acc r)
        acc).map Prod.fst).Nodup := by
    intro rs
    induction rs with
    | nil => intro acc hacc; exact hacc
    | cons r rs ih =>
      intro acc hacc
      rw [List.foldl_cons]
      by_cases h : r.courseCode = ""
      · rw [if_pos h]
        exact ih acc hacc
      · rw [if_neg h]
        refine ih (addToGroup acc r) ?_
        rw [addToGroup_keys]
        by_cases h2 : r.courseCode ∈ acc.map Prod.fst
        · rw [if_pos h2]
          exact hacc
        · rw [if_neg h2, List.nodup_append]
          refine ⟨hacc, List.nodup_singleton _, ?_⟩
          intro a ha ha2
          rw [List.mem_singleton] at ha2
          subst ha2
          exact h2 ha
  exact aux reqs [] (by simp)

theorem addToGroup_count (x : Req) (acc : List (String × List Req)) (r : Req) :
    rcount x (catMap (fun g => g.2) (addToGroup acc r)) =
      rcount x (catMap (fun g => g.2) acc) + rcount x [r] := by
  induction acc with
  | nil => simp [addToGroup, catMap, rcount_nil, rcount_append]
  | cons g gs ih =>
    rw [addToGroup]
    by_cases h : g.1 = r.courseCode
    · rw [if_pos h, catMap, catMap, rcount_append, rcount_append,
        rcount_append]
      omega
    · rw [if_neg h, catMap, catMap, rcount_append, rcount_append, ih]
      omega

theorem groupRequests_count (x : Req) (reqs : List Req) :
    rcount x (catMap (fun g => g.2) (groupRequests reqs)) =
      rcount x (reqs.filter (fun q => !decide (q.courseCode = ""))) := by
  rw [groupRequests]
  have aux : ∀ (rs : List Req) (acc : List (String × List Req)),
      rcount x (catMap (fun g => g.2) (rs.foldl
        (fun acc r => if r.courseCode = "" then acc else addToGroup acc r)
        acc)) =
      rcount x (catMap (fun g => g.2) acc) +
        rcount x (rs.filter (fun q => !decide (q.courseCode = ""))) := by
    intro rs
    induction rs with
    | nil => intro acc; simp [rcount_nil]
    | cons r rs ih =>
      intro acc
      rw [List.foldl_cons]
      by_cases h : r.courseCode = ""
      · rw [if_pos h, ih, List.filter_cons_of_neg (by simp [h])]
      · rw [if_neg h, ih, addToGroup_count,
          List.filter_cons_of_pos (by simp [h]), rcount_cons, rcount_cons,
          rcount_nil]
        omega
  rw [aux reqs []]
  simp [catMap, rcount_nil]

/-! Engine-level partition lemmas. -/

theorem simplePhase1_unresolved (ab : List String)
    (ctl : List ((String × Nat) × String))
    (details : List (String × CourseDetails))
    (groups : List (String × List Req)) :
    (simplePhase1 ab ctl details groups).unresolvedP1 =
      catMap (unknownSel details) groups := by
  rw [simplePhase1, simpleP1Go_unresolved]
  rfl

theorem simpleSchedule_partition (ab : List String)
    (ctl : List ((String × Nat) × String))
    (details : List (String × CourseDetails))
    (groups : List (String × List Req)) (x : Req) :
    rcount x (simpleSchedule ab ctl details groups).resolved +
      rcount x (simpleSchedule ab ctl details groups).unresolved =
    rcount x (catMap (fun g => g.2) groups) := by
  have h1 := phase2Run_partition (simplePhase1 ab ctl details groups).secWrites
    (simpleCtx details groups)
    ⟨[], [], [], (simplePhase1 ab ctl details groups).unresolvedP1⟩ x
  replace h1 : rcount x (simpleSchedule ab ctl details groups).resolved +
      rcount x (simpleSchedule ab ctl details groups).unresolved =
      rcount x [] + rcount x (simplePhase1 ab ctl details groups).unresolvedP1 +
      rcount x ((simpleCtx details groups).map Ctx.req) := h1
  rw [rcount_nil, simplePhase1_unresolved] at h1
  have h3 := simpleCtx_reqs_count x details groups
  omega

theorem m2_reqs_count (x : Req) (details : List (String × CourseDetails))
    (groups : List (String × List Req)) :
    rcount x ((m2Ctx details groups).map Ctx.req) =
      rcount x ((catMap (fun g => g.2) groups).filter
        (fun r => decide (r.reqType.getD "" ∈ priorityOrder))) := by
  rw [m2Ctx_reqs, rcount_filter]
  simp only [priorityOrder, catMap, List.append_nil]
  rw [rcount_append, rcount_append, catMap_filter_count, catMap_filter_count,
    catMap_filter_count]
  have ne1 : ("Required" : String) ≠ "Requested" := by decide
  have ne2 : ("Required" : String) ≠ "Recommended" := by decide
  have ne3 : ("Requested" : String) ≠ "Recommended" := by decide
  by_cases h0 : x.reqType.getD "" = "Required"
  · simp [hasTier, h0, ne1, ne2]
  · by_cases h1 : x.reqType.getD "" = "Requested"
    · simp [hasTier, h0, h1, ne3]
    · by_cases h2 : x.reqType.getD "" = "Recommended"
      · simp [hasTier, h0, h1, h2]
      · simp [hasTier, h0, h1, h2]

theorem m2Schedule_partition (ab : List String)
    (ctl : List ((String × Nat) × String))
    (details : List (String × CourseDetails))
    (groups : List (String × List Req)) (x : Req) :
    rcount x (m2Schedule ab ctl details groups).resolved +
      rcount x (m2Schedule ab ctl details groups).unresolved =
    rcount x ((catMap (fun g => g.2) groups).filter
      (fun r => decide (r.reqType.getD "" ∈ priorityOrder))) := by
  have h1 := phase2Run_partition (m2Phase1 ab ctl details groups).secWrites
    (m2Ctx details groups) ⟨[], [], [], []⟩ x
  replace h1 : rcount x (m2Schedule ab ctl details groups).resolved +
      rcount x (m2Schedule ab ctl details groups).unresolved =
      rcount x [] + rcount x [] + rcount x ((m2Ctx details groups).map Ctx.req) := h1
  rw [rcount_nil, m2_reqs_count] at h1
  omega

/-- Claim C1, as stated, is false on `milestone2.generate_schedule`: the
single input request, whose `Type` value is `"X"`, appears in neither the
resolved nor the unresolved output list, although it is part of the grouped
engine input. -/
theorem c1_counterexample :
    (m2Pipeline ["1A"] [] c1Chars [c1Req]).resolved = [] ∧
    (m2Pipeline ["1A"] [] c1Chars [c1Req]).unresolved = [] ∧
    catMap (fun g => g.2) (m2GroupsOf [c1Req]) = [c1Req] := by
  exact ⟨rfl, rfl, rfl⟩

/-- Claim C1, amended: for `simple_scheduler.generate_schedule` the
resolved and unresolved lists always form an exact partition of the grouped
input requests (counted with multiplicity), regardless of Type value or
course code; for `milestone2.generate_schedule` they form an exact
partition of only those input requests whose `Type` is one of the three
priority tiers — a request with any other (or missing) `Type` value appears
in neither list. -/
theorem c1_amended :
    (∀ (ab : List String) (ctl : List ((String × Nat) × String))
        (details : List (String × CourseDetails))
        (groups : List (String × List Req)) (x : Req),
      rcount x ((simpleSchedule ab ctl details groups).resolved ++
          (simpleSchedule ab ctl details groups).unresolved) =
        rcount x (catMap (fun g => g.2) groups)) ∧
    (∀ (ab : List String) (ctl : List ((String × Nat) × String))
        (details : List (String × CourseDetails))
        (groups : List (String × List Req)) (x : Req),
      rcount x ((m2Schedule ab ctl details groups).resolved ++
          (m2Schedule ab ctl details groups).unresolved) =
        rcount x ((catMap (fun g => g.2) groups).filter
          (fun r => decide (r.reqType.getD "" ∈ priorityOrder)))) := by
  constructor
  · intro ab ctl details groups x
    rw [rcount_append]
    exact simpleSchedule_partition ab ctl details groups x
  · intro ab ctl details groups x
    rw [rcount_append]
    exact m2Schedule_partition ab ctl details groups x

/-! Priority-tier ordering lemmas for claim C2.  Both engines' second
passes are, by definition, the left fold of `processReq` over their context
lists, so the context list is exactly the order in which requests are
attempted. -/

theorem prioKey_required (r : Req) (h : r.reqType.getD "" = "Required") :
    prioKey r = 0 := by
  cases ht : r.reqType with
  | none =>
    rw [ht] at h
    exact absurd h (by decide)
  | some s =>
    rw [ht] at h
    replace h : s = "Required" := h
    subst h
    simp [prioKey, ht]

theorem prioKey_requested (r : Req) (h : r.reqType.getD "" = "Requested") :
    prioKey r = 1 := by
  cases ht : r.reqType with
  | none =>
    rw [ht] at h
    exact absurd h (by decide)
  | some s =>
    rw [ht] at h
    replace h : s = "Requested" := h
    subst h
    simp [prioKey, ht]

theorem prioKey_recommended (r : Req)
    (h : r.reqType.getD "" = "Recommended") : prioKey r = 2 := by
  cases ht : r.reqType with
  | none =>
    rw [ht] at h
    exact absurd h (by decide)
  | some s =>
    rw [ht] at h
    replace h : s = "Recommended" := h
    subst h
    simp [prioKey, ht]

theorem m2CtxOf_tier (details : List (String × CourseDetails)) (t : String)
    (g : String × List Req) (ctx : Ctx) (h : ctx ∈ m2CtxOf details t g) :
    ctx.req.reqType.getD "" = t := by
  simp only [m2CtxOf, List.mem_map, List.mem_filter] at h
  obtain ⟨r, ⟨_, hrt⟩, he⟩ := h
  subst he
  simpa [hasTier] using hrt

/-- Claim C2, as stated, is false on `simple_scheduler.generate_schedule`:
on this input its second pass attempts the Requested request of the earlier
course A before the Required request of the later course B (priority keys
1 then 0 in processing order), and the run resolves the Requested request
while leaving the Required request unresolved — the Required request would
have fit had it been attempted first. -/
theorem c2_counterexample :
    ((simpleCtx (simpleDetailsOf c2Chars) (groupRequests c2Reqs)).map
      (fun c => prioKey c.req)) = [1, 0] ∧
    (simplePipeline [] c2Chars c2Reqs).resolved =
      [⟨"S", "A", some "Requested"⟩] ∧
    (simplePipeline [] c2Chars c2Reqs).unresolved =
      [⟨"S", "B", some "Required"⟩] := by
  exact ⟨rfl, rfl, rfl⟩

/-- Claim C2, amended: `milestone2.generate_schedule` does process priority
tiers as the outer loop — its entire request-processing order is sorted by
priority tier, so every Required request across the catalog is attempted
before any Requested request, and every Requested before any Recommended.
`simple_scheduler.generate_schedule` instead sorts by priority only within
each course (its processing order is tier-sorted within every course's
segment), so a Requested request of an earlier course can be attempted
before a Required request of a later course. -/
theorem c2_amended :
    (∀ (details : List (String × CourseDetails))
        (groups : List (String × List Req)),
      List.Pairwise (fun a b => prioKey a.req ≤ prioKey b.req)
        (m2Ctx details groups)) ∧
    (∀ rs : List Req,
      List.Pairwise (fun a b => prioKey a ≤ prioKey b) (sortReqs rs)) := by
  constructor
  · intro details groups
    have key0 : ∀ x ∈ catMap (m2CtxOf details "Required") groups,
        prioKey x.req = 0 := by
      intro x hx
      obtain ⟨g, _, hg⟩ := (mem_catMap _ _ _).mp hx
      exact prioKey_required _ (m2CtxOf_tier details _ g x hg)
    have key1 : ∀ x ∈ catMap (m2CtxOf details "Requested") groups,
        prioKey x.req = 1 := by
      intro x hx
      obtain ⟨g, _, hg⟩ := (mem_catMap _ _ _).mp hx
      exact prioKey_requested _ (m2CtxOf_tier details _ g x hg)
    have key2 : ∀ x ∈ catMap (m2CtxOf details "Recommended") groups,
        prioKey x.req = 2 := by
      intro x hx
      obtain ⟨g, _, hg⟩ := (mem_catMap _ _ _).mp hx
      exact prioKey_recommended _ (m2CtxOf_tier details _ g x hg)
    have e : m2Ctx details groups =
        catMap (m2CtxOf details "Required") groups ++
          (catMap (m2CtxOf details "Requested") groups ++
            catMap (m2CtxOf details "Recommended") groups) := by
      simp [m2Ctx, priorityOrder, catMap]
    rw [e]
    refine List.pairwise_append.mpr ⟨?_, ?_, ?_⟩
    · exact List.pairwise_of_forall_mem_list
        (fun a ha b hb => by rw [key0 a ha, key0 b hb])
    · refine List.pairwise_append.mpr ⟨?_, ?_, ?_⟩
      · exact List.pairwise_of_forall_mem_list
          (fun a ha b hb => by rw [key1 a ha, key1 b hb])
      · exact List.pairwise_of_forall_mem_list
          (fun a ha b hb => by rw [key2 a ha, key2 b hb])
      · intro a ha b hb
        rw [key1 a ha, key2 b hb]
        omega
    · intro a ha b hb
      rw [key0 a ha]
      exact Nat.zero_le _
  · intro rs
    have k : ∀ (i : Nat) (r : Req),
        r ∈ rs.filter (fun r => decide (prioKey r = i)) → prioKey r = i := by
      intro i r hr
      simpa using (List.mem_filter.mp hr).2
    rw [sortReqs]
    refine List.pairwise_append.mpr ⟨?_, ?_, ?_⟩
    · refine List.pairwise_append.mpr ⟨?_, ?_, ?_⟩
      · refine List.pairwise_append.mpr ⟨?_, ?_, ?_⟩
        · exact List.pairwise_of_forall_mem_list
            (fun a ha b hb => by rw [k 0 a ha, k 0 b hb])
        · exact List.pairwise_of_forall_mem_list
            (fun a ha b hb => by rw [k 1 a ha, k 1 b hb])
        · intro a ha b hb
          rw [k 0 a ha, k 1 b hb]
          omega
      · exact List.pairwise_of_forall_mem_list
          (fun a ha b hb => by rw [k 2 a ha, k 2 b hb])
      · intro a ha b hb
        rw [k 2 b hb]
        rcases List.mem_append.mp ha with ha | ha
        · rw [k 0 a ha]
          omega
        · rw [k 1 a ha]
          omega
    · exact List.pairwise_of_forall_mem_list
        (fun a ha b hb => by rw [k 999 a ha, k 999 b hb])
    · intro a ha b hb
      rw [k 999 b hb]
      rcases prioKey_cases a with ha2 | ha2 | ha2 | ha2 <;> rw [ha2] <;> omega

/-! Capacity and no-double-booking invariants (claims C6 and C7). -/

theorem simpleCtx_maxSize (details : List (String × CourseDetails))
    (groups : List (String × List Req)) (ctx : Ctx)
    (h : ctx ∈ simpleCtx details groups) :
    ctx.maxSize = simpleMS details ctx.course := by
  obtain ⟨g, _, co, hd, hc, _, hms, _⟩ := simpleCtx_mem details groups ctx h
  rw [hms, simpleMS, hc, hd]

theorem m2Ctx_maxSize (details : List (String × CourseDetails))
    (groups : List (String × List Req)) (ctx : Ctx)
    (h : ctx ∈ m2Ctx details groups) :
    ctx.maxSize = m2MS details ctx.course := by
  obtain ⟨t, _, g, _, hc, _, hms, _, _⟩ := m2Ctx_mem details groups ctx h
  rw [hms, m2MS, hc]

/-- Claim C6: in both engines, after every single mutation of the
student-section assignment phase (that is, after processing any prefix of
the request-processing order), every section's roster size is bounded by
the maximum size the engine uses for its course — the stored
`Maximum section size` (with `milestone2`'s default 25 for a course without
details; in `simple_scheduler` such courses are never rostered at all).
A student is appended only when the roster is strictly below that bound. -/
theorem c6_capacity :
    (∀ (ab : List String) (ctl : List ((String × Nat) × String))
        (details : List (String × CourseDetails))
        (groups : List (String × List Req)) (i : Nat) (c : String) (n : Nat),
      rosterLen (phase2Run (simplePhase1 ab ctl details groups).secWrites
          ((simpleCtx details groups).take i)
          ⟨[], [], [], (simplePhase1 ab ctl details groups).unresolvedP1⟩).assignLog
        (c, n) ≤ simpleMS details c) ∧
    (∀ (ab : List String) (ctl : List ((String × Nat) × String))
        (details : List (String × CourseDetails))
        (groups : List (String × List Req)) (i : Nat) (c : String) (n : Nat),
      rosterLen (phase2Run (m2Phase1 ab ctl details groups).secWrites
          ((m2Ctx details groups).take i) ⟨[], [], [], []⟩).assignLog
        (c, n) ≤ m2MS details c) := by
  constructor
  · intro ab ctl details groups i c n
    refine phase2Run_capacity _ (simpleMS details) _ _ ?_ ?_ (c, n)
    · intro ctx hctx
      exact simpleCtx_maxSize details groups ctx (List.take_subset i _ hctx)
    · intro key
      exact Nat.zero_le _
  · intro ab ctl details groups i c n
    refine phase2Run_capacity _ (m2MS details) _ _ ?_ ?_ (c, n)
    · intro ctx hctx
      exact m2Ctx_maxSize details groups ctx (List.take_subset i _ hctx)
    · intro key
      exact Nat.zero_le _

/-- Claim C7: in both engines, at every point of the student-section
assignment phase (after processing any prefix of the request-processing
order) the student schedules map each (student, block) pair to at most one
entry: a student is bound in a block only if that block is not already
present in the student's schedule, so no two requests of one student are
resolved into the same block. -/
theorem c7_no_double_booking :
    (∀ (ab : List String) (ctl : List ((String × Nat) × String))
        (details : List (String × CourseDetails))
        (groups : List (String × List Req)) (i : Nat),
      ((phase2Run (simplePhase1 ab ctl details groups).secWrites
          ((simpleCtx details groups).take i)
          ⟨[], [], [], (simplePhase1 ab ctl details groups).unresolvedP1⟩).student.map
        Prod.fst).Nodup) ∧
    (∀ (ab : List String) (ctl : List ((String × Nat) × String))
        (details : List (String × CourseDetails))
        (groups : List (String × List Req)) (i : Nat),
      ((phase2Run (m2Phase1 ab ctl details groups).secWrites
          ((m2Ctx details groups).take i)
          ⟨[], [], [], []⟩).student.map Prod.fst).Nodup) := by
  constructor
  · intro ab ctl details groups i
    exact phase2Run_student_nodup _ _ _ (by simp)
  · intro ab ctl details groups i
    exact phase2Run_student_nodup _ _ _ (by simp)

/-- Claim C8: on the scenario input (course BIB9, 2 sections, maximum size
2, eligible blocks 1A and 1B, no lecturer records, five Required requests
S1..S5) both engines bind section 1 to block 1A and section 2 to block 1B,
fill section 1 with S1 and S2 and section 2 with S3 and S4, resolving those
four requests, and leave S5 unresolved.  For `milestone2` the global block
list computed by `extract_rules_and_constraints` from this input is the
sorted union of the available block lists, here `["1A", "1B"]`. -/
theorem c8_scenario :
    (simplePipeline [] c8Chars c8Reqs).secWrites =
      [(("BIB9", 1), "1A"), (("BIB9", 2), "1B")] ∧
    (simplePipeline [] c8Chars c8Reqs).assignLog =
      [(("BIB9", 1), "S1"), (("BIB9", 1), "S2"),
       (("BIB9", 2), "S3"), (("BIB9", 2), "S4")] ∧
    (simplePipeline [] c8Chars c8Reqs).resolved =
      [⟨"S1", "BIB9", some "Required"⟩, ⟨"S2", "BIB9", some "Required"⟩,
       ⟨"S3", "BIB9", some "Required"⟩, ⟨"S4", "BIB9", some "Required"⟩] ∧
    (simplePipeline [] c8Chars c8Reqs).unresolved =
      [⟨"S5", "BIB9", some "Required"⟩] ∧
    (m2Pipeline ["1A", "1B"] [] c8Chars c8Reqs).secWrites =
      [(("BIB9", 1), "1A"), (("BIB9", 2), "1B")] ∧
    (m2Pipeline ["1A", "1B"] [] c8Chars c8Reqs).assignLog =
      [(("BIB9", 1), "S1"), (("BIB9", 1), "S2"),
       (("BIB9", 2), "S3"), (("BIB9", 2), "S4")] ∧
    (m2Pipeline ["1A", "1B"] [] c8Chars c8Reqs).resolved =
      [⟨"S1", "BIB9", some "Required"⟩, ⟨"S2", "BIB9", some "Required"⟩,
       ⟨"S3", "BIB9", some "Required"⟩, ⟨"S4", "BIB9", some "Required"⟩] ∧
    (m2Pipeline ["1A", "1B"] [] c8Chars c8Reqs).unresolved =
      [⟨"S5", "BIB9", some "Required"⟩] :=
  ⟨rfl, rfl, rfl, rfl, rfl, rfl, rfl, rfl⟩

/-! Claims C9 and C3: dropped and unknown-course requests. -/

/-- Claim C9: a request whose course code field is falsy (missing, None or
empty, all embedded as the empty string) is omitted from the grouped engine
input by both preprocessors, and consequently appears in neither the
resolved nor the unresolved output list of either pipeline. -/
theorem c9_dropped (ab : List String) (listings : List CourseListing)
    (chars : List CourseChar) (reqs : List Req) (r : Req)
    (h : r.courseCode = "") :
    (∀ g ∈ groupRequests reqs, r ∉ g.2) ∧
    r ∉ (simplePipeline listings chars reqs).resolved ∧
    r ∉ (simplePipeline listings chars reqs).unresolved ∧
    r ∉ (m2Pipeline ab listings chars reqs).resolved ∧
    r ∉ (m2Pipeline ab listings chars reqs).unresolved := by
  have hmem : ∀ g ∈ groupRequests reqs, r ∉ g.2 := by
    intro g hg hrg
    obtain ⟨hne, hall⟩ := groupRequests_inv reqs g hg
    exact hne (by rw [← hall r hrg, h])
  have hflat : r ∉ catMap (fun g => g.2) (groupRequests reqs) := by
    intro hr
    obtain ⟨g, hg, hrg⟩ := (mem_catMap _ _ _).mp hr
    exact hmem g hg hrg
  have hflat2 : r ∉ catMap (fun g => g.2) (m2GroupsOf reqs) := by
    intro hr
    obtain ⟨g2, hg2, hrg2⟩ := (mem_catMap _ _ _).mp hr
    rw [m2GroupsOf] at hg2
    obtain ⟨g, hg, he⟩ := List.mem_map.mp hg2
    subst he
    exact hmem g hg (sortReqs_subset _ _ hrg2)
  have hs : rcount r (simplePipeline listings chars reqs).resolved +
      rcount r (simplePipeline listings chars reqs).unresolved =
      rcount r (catMap (fun g => g.2) (groupRequests reqs)) :=
    simpleSchedule_partition simpleAllBlocks (buildCTL listings)
      (simpleDetailsOf chars) (groupRequests reqs) r
  have hm : rcount r (m2Pipeline ab listings chars reqs).resolved +
      rcount r (m2Pipeline ab listings chars reqs).unresolved =
      rcount r ((catMap (fun g => g.2) (m2GroupsOf reqs)).filter
        (fun q => decide (q.reqType.getD "" ∈ priorityOrder))) :=
    m2Schedule_partition ab (buildCTL listings) (m2DetailsOf ab chars)
      (m2GroupsOf reqs) r
  rw [(rcount_eq_zero r _).mpr hflat] at hs
  have hflat3 : r ∉ (catMap (fun g => g.2) (m2GroupsOf reqs)).filter
      (fun q => decide (q.reqType.getD "" ∈ priorityOrder)) := by
    intro hr
    exact hflat2 (List.mem_filter.mp hr).1
  rw [(rcount_eq_zero r _).mpr hflat3] at hm
  refine ⟨hmem, ?_, ?_, ?_, ?_⟩ <;> rw [← rcount_eq_zero] <;> omega

/-- Witness for claim C9 at a concrete input: the single request has an
empty course code and lands in no output list. -/
theorem c9_dropped_witness :
    c9Req.courseCode = "" ∧
    ((∀ g ∈ groupRequests [c9Req], c9Req ∉ g.2) ∧
     c9Req ∉ (simplePipeline [] [] [c9Req]).resolved ∧
     c9Req ∉ (simplePipeline [] [] [c9Req]).unresolved ∧
     c9Req ∉ (m2Pipeline ["1A"] [] [] [c9Req]).resolved ∧
     c9Req ∉ (m2Pipeline ["1A"] [] [] [c9Req]).unresolved) :=
  ⟨rfl, c9_dropped ["1A"] [] [] [c9Req] c9Req rfl⟩

/-- Claim C3, as stated, is false on `milestone2.generate_schedule`: with
no course records at all, the single Required request for the unknown
course X is resolved rather than immediately unresolved — the engine
consults sections, creates one with the default parameters (1 section,
maximum size 25, all blocks eligible), binds it to block 1A, and appends
the student to its roster. -/
theorem c3_counterexample :
    (m2Pipeline ["1A"] [] [] [c3Req]).secWrites = [(("X", 1), "1A")] ∧
    (m2Pipeline ["1A"] [] [] [c3Req]).assignLog = [(("X", 1), "S")] ∧
    (m2Pipeline ["1A"] [] [] [c3Req]).resolved = [c3Req] ∧
    (m2Pipeline ["1A"] [] [] [c3Req]).unresolved = [] :=
  ⟨rfl, rfl, rfl, rfl⟩

/-- Claim C3, amended: `simple_scheduler.generate_schedule` behaves as the
claim states — every request whose course code has no Course record is
marked unresolved (all its occurrences end in the unresolved list, none in
the resolved list), and no roster entry is ever created for a course
without details, so such requests never touch sections or schedules.
`milestone2.generate_schedule` instead schedules unknown courses with
default parameters and can resolve their requests. -/
theorem c3_amended (listings : List CourseListing) (chars : List CourseChar)
    (reqs : List Req) (r : Req) (h0 : r.courseCode ≠ "")
    (h1 : dget (simpleDetailsOf chars) r.courseCode = none) :
    rcount r (simplePipeline listings chars reqs).resolved = 0 ∧
    rcount r (simplePipeline listings chars reqs).unresolved =
      rcount r reqs ∧
    ∀ p ∈ (simplePipeline listings chars reqs).assignLog,
      dget (simpleDetailsOf chars) p.1.1 ≠ none := by
  have hres : r ∉ (simplePipeline listings chars reqs).resolved := by
    intro hr
    have h2 := phase2Run_resolved_mem
      (simplePhase1 simpleAllBlocks (buildCTL listings) (simpleDetailsOf chars)
        (groupRequests reqs)).secWrites
      (simpleCtx (simpleDetailsOf chars) (groupRequests reqs))
      ⟨[], [], [], (simplePhase1 simpleAllBlocks (buildCTL listings)
        (simpleDetailsOf chars) (groupRequests reqs)).unresolvedP1⟩ r hr
    rcases h2 with h2 | h2
    · exact List.not_mem_nil r h2
    · obtain ⟨ctx, hctx, he⟩ := List.mem_map.mp h2
      obtain ⟨g, hg, co, hd, hcourse, _, _, hreqmem⟩ :=
        simpleCtx_mem (simpleDetailsOf chars) (groupRequests reqs) ctx hctx
      rw [he] at hreqmem
      have hcode : r.courseCode = g.1 :=
        (groupRequests_inv reqs g hg).2 r hreqmem
      rw [hcode] at h1
      rw [h1] at hd
      exact absurd hd (by simp)
  have hz : rcount r (simplePipeline listings chars reqs).resolved = 0 :=
    (rcount_eq_zero r _).mpr hres
  have hs : rcount r (simplePipeline listings chars reqs).resolved +
      rcount r (simplePipeline listings chars reqs).unresolved =
      rcount r (catMap (fun g => g.2) (groupRequests reqs)) :=
    simpleSchedule_partition simpleAllBlocks (buildCTL listings)
      (simpleDetailsOf chars) (groupRequests reqs) r
  rw [groupRequests_count, rcount_filter] at hs
  rw [if_pos (by simp [h0])] at hs
  refine ⟨hz, by omega, ?_⟩
  intro p hp
  have h3 := phase2Run_assignLog_mem
    (simplePhase1 simpleAllBlocks (buildCTL listings) (simpleDetailsOf chars)
      (groupRequests reqs)).secWrites
    (simpleCtx (simpleDetailsOf chars) (groupRequests reqs))
    ⟨[], [], [], (simplePhase1 simpleAllBlocks (buildCTL listings)
      (simpleDetailsOf chars) (groupRequests reqs)).unresolvedP1⟩ p hp
  rcases h3 with h3 | h3
  · exact absurd h3 (List.not_mem_nil p)
  · obtain ⟨ctx, hctx, he⟩ := h3
    obtain ⟨g, hg, co, hd, hcourse, _, _, _⟩ :=
      simpleCtx_mem (simpleDetailsOf chars) (groupRequests reqs) ctx hctx
    rw [he, hcourse, hd]
    simp

/-- Witness for the amended claim C3 at a concrete input: one Required
request for a course with no record stays unresolved and creates no roster
entry in `simple_scheduler`. -/
theorem c3_amended_witness :
    (c3Req.courseCode ≠ "" ∧
      dget (simpleDetailsOf []) c3Req.courseCode = none) ∧
    (rcount c3Req (simplePipeline [] [] [c3Req]).resolved = 0 ∧
     rcount c3Req (simplePipeline [] [] [c3Req]).unresolved =
       rcount c3Req [c3Req] ∧
     ∀ p ∈ (simplePipeline [] [] [c3Req]).assignLog,
       dget (simpleDetailsOf []) p.1.1 ≠ none) :=
  ⟨⟨by decide, rfl⟩, c3_amended [] [] [c3Req] c3Req (by decide) rfl⟩

/-! Claim C4: write-once section-block bindings. -/

/-- Claim C4, as stated, is false on `milestone2.generate_schedule`: course
C has requests in two priority tiers, so its single section is processed
once per tier, and the section-to-block map is written twice for the same
section identity — first block 1A, then overwritten with block 1B (while
the lecturer's schedule keeps both slots). -/
theorem c4_counterexample :
    (m2Pipeline ["1A", "1B"] [] c4Chars c4Reqs).secWrites =
      [(("C", 1), "1A"), (("C", 1), "1B")] ∧
    ¬ (((m2Pipeline ["1A", "1B"] [] c4Chars c4Reqs).secWrites.map
        Prod.fst).Nodup) :=
  ⟨rfl, by decide⟩

/-- Claim C4, amended: in `simple_scheduler.generate_schedule` the claim
holds — over a whole run on grouped requests, the section-to-block
write log has pairwise-distinct section keys, i.e. each section identity
(course code, section index) is written at most once and a binding is never
overwritten.  In `milestone2`, a course whose requests span several
priority tiers is re-processed once per tier and an existing binding can be
overwritten (see the counterexample). -/
theorem c4_amended (ab : List String)
    (ctl : List ((String × Nat) × String))
    (details : List (String × CourseDetails)) (reqs : List Req) :
    (((simpleSchedule ab ctl details (groupRequests reqs)).secWrites).map
      Prod.fst).Nodup := by
  obtain ⟨w, hw, hnd, _⟩ :=
    simpleP1Go_writes ab ctl details (groupRequests reqs) ⟨[], [], []⟩
  have e : (simpleSchedule ab ctl details (groupRequests reqs)).secWrites =
      (simpleP1Go ab ctl details (groupRequests reqs) ⟨[], [], []⟩).secWrites :=
    rfl
  rw [e, hw]
  simpa using hnd (groupRequests_keys_nodup reqs)

/-! Claim C5: the first-fit block selection of `simple_scheduler`'s first
pass refines the specification-side first-fit description. -/

theorem hasKey_eq_mem {k v : Type} [DecidableEq k] (l : List (k × v))
    (key : k) :
    hasKey l key = decide (key ∈ l.map Prod.fst) := by
  cases h : hasKey l key
  · rw [hasKey_eq_false] at h
    simp [h]
  · rw [hasKey_eq_true] at h
    simp [h]

theorem specCourseAssign_nil (gb elig excl : List String)
    (lectOf : Nat → String) (claimed : List String)
    (occ : List (String × String)) :
    specCourseAssign gb elig excl lectOf claimed occ [] = ([], occ) := rfl

theorem specCourseAssign_cons_some (gb elig excl : List String)
    (lectOf : Nat → String) (claimed : List String)
    (occ : List (String × String)) (n : Nat) (ns : List Nat) (b : String)
    (h : specPickBlock gb elig excl claimed occ (lectOf n) = some b) :
    specCourseAssign gb elig excl lectOf claimed occ (n :: ns) =
      ((n, b) :: (specCourseAssign gb elig excl lectOf (claimed ++ [b])
          (occ ++ [(lectOf n, b)]) ns).1,
        (specCourseAssign gb elig excl lectOf (claimed ++ [b])
          (occ ++ [(lectOf n, b)]) ns).2) := by
  rw [specCourseAssign, h]

theorem specCourseAssign_cons_none (gb elig excl : List String)
    (lectOf : Nat → String) (claimed : List String)
    (occ : List (String × String)) (n : Nat) (ns : List Nat)
    (h : specPickBlock gb elig excl claimed occ (lectOf n) = none) :
    specCourseAssign gb elig excl lectOf claimed occ (n :: ns) =
      specCourseAssign gb elig excl lectOf claimed occ ns := by
  rw [specCourseAssign, h]

theorem simpleSecStep_of_some (ab avail unavail : List String)
    (lectOf : Nat → String) (c : String) (claimed : List String)
    (st : P1State) (n : Nat) (b : String)
    (h : firstSat (fun x => decide (x ∈ avail) && !decide (x ∈ unavail) &&
        !decide (x ∈ claimed) && !hasKey st.teacher (lectOf n, x)) ab =
      some b) :
    simpleSecStep ab avail unavail lectOf c (claimed, st) n =
      (claimed ++ [b],
        { st with
            teacher := st.teacher ++ [((lectOf n, b), sectionInfo c n)],
            secWrites := st.secWrites ++ [((c, n), b)] }) := by
  simp only [simpleSecStep]
  rw [h]

theorem simpleSecStep_of_none (ab avail unavail : List String)
    (lectOf : Nat → String) (c : String) (claimed : List String)
    (st : P1State) (n : Nat)
    (h : firstSat (fun x => decide (x ∈ avail) && !decide (x ∈ unavail) &&
        !decide (x ∈ claimed) && !hasKey st.teacher (lectOf n, x)) ab =
      none) :
    simpleSecStep ab avail unavail lectOf c (claimed, st) n = (claimed, st) := by
  simp only [simpleSecStep]
  rw [h]

theorem simpleSecFold_spec (ab avail unavail : List String)
    (lectOf : Nat → String) (c : String) :
    ∀ (ns : List Nat) (claimed : List String) (st : P1State),
      ((ns.foldl (simpleSecStep ab avail unavail lectOf c) (claimed, st)).2).secWrites
          = st.secWrites ++
            ((specCourseAssign ab avail unavail lectOf claimed
              (st.teacher.map Prod.fst) ns).1.map (fun q => ((c, q.1), q.2))) ∧
        ((ns.foldl (simpleSecStep ab avail unavail lectOf c)
            (claimed, st)).2).teacher.map Prod.fst
          = (specCourseAssign ab avail unavail lectOf claimed
              (st.teacher.map Prod.fst) ns).2 := by
  intro ns
  induction ns with
  | nil =>
    intro claimed st
    rw [List.foldl_nil, specCourseAssign_nil]
    exact ⟨by simp, rfl⟩
  | cons n ns ih =>
    intro claimed st
    rw [List.foldl_cons]
    have hfs : firstSat (fun x => decide (x ∈ avail) && !decide (x ∈ unavail) &&
        !decide (x ∈ claimed) && !hasKey st.teacher (lectOf n, x)) ab =
        specPickBlock ab avail unavail claimed (st.teacher.map Prod.fst)
          (lectOf n) := by
      rw [specPickBlock]
      refine firstSat_congr _ _ ab (fun x => ?_)
      by_cases hm : (lectOf n, x) ∈ st.teacher.map Prod.fst
      · rw [(hasKey_eq_true st.teacher (lectOf n, x)).mpr hm]
        simp [hm]
      · rw [(hasKey_eq_false st.teacher (lectOf n, x)).mpr hm]
        simp [hm]
    cases hp : specPickBlock ab avail unavail claimed (st.teacher.map Prod.fst)
        (lectOf n) with
    | some b =>
      rw [simpleSecStep_of_some ab avail unavail lectOf c claimed st n b
          (by rw [hfs, hp]),
        specCourseAssign_cons_some ab avail unavail lectOf claimed _ n ns b hp]
      obtain ⟨ih1, ih2⟩ := ih (claimed ++ [b])
        { st with
            teacher := st.teacher ++ [((lectOf n, b), sectionInfo c n)],
            secWrites := st.secWrites ++ [((c, n), b)] }
      constructor
      · rw [ih1]
        simp [List.map_append, List.append_assoc]
      · rw [ih2]
        simp [List.map_append]
    | none =>
      rw [simpleSecStep_of_none ab avail unavail lectOf c claimed st n
          (by rw [hfs, hp]),
        specCourseAssign_cons_none ab avail unavail lectOf claimed _ n ns hp]
      exact ih claimed st

theorem specPhase1_nil (gb : List String)
    (ctl : List ((String × Nat) × String))
    (details : List (String × CourseDetails))
    (occ : List (String × String)) :
    specPhase1 gb ctl details occ [] = ([], occ) := rfl

theorem specPhase1_cons_none (gb : List String)
    (ctl : List ((String × Nat) × String))
    (details : List (String × CourseDetails))
    (occ : List (String × String)) (g : String × List Req)
    (gs : List (String × List Req)) (hd : dget details g.1 = none) :
    specPhase1 gb ctl details occ (g :: gs) =
      specPhase1 gb ctl details occ gs := by
  rw [specPhase1, hd]

theorem specPhase1_cons_some (gb : List String)
    (ctl : List ((String × Nat) × String))
    (details : List (String × CourseDetails))
    (occ : List (String × String)) (g : String × List Req)
    (gs : List (String × List Req)) (course : CourseDetails)
    (hd : dget details g.1 = some course) :
    specPhase1 gb ctl details occ (g :: gs) =
      (((specCourseAssign gb (effAvail gb course.availableBlocks)
          course.unavailableBlocks (lecturerOf ctl g.1) [] occ
          (secRange course.numSections)).1.map (fun p => ((g.1, p.1), p.2))) ++
        (specPhase1 gb ctl details
          (specCourseAssign gb (effAvail gb course.availableBlocks)
            course.unavailableBlocks (lecturerOf ctl g.1) [] occ
            (secRange course.numSections)).2 gs).1,
       (specPhase1 gb ctl details
          (specCourseAssign gb (effAvail gb course.availableBlocks)
            course.unavailableBlocks (lecturerOf ctl g.1) [] occ
            (secRange course.numSections)).2 gs).2) := by
  rw [specPhase1, hd]

theorem simpleP1Go_spec (ab : List String)
    (ctl : List ((String × Nat) × String))
    (details : List (String × CourseDetails)) :
    ∀ (groups : List (String × List Req)) (st : P1State),
      (simpleP1Go ab ctl details groups st).secWrites =
        st.secWrites ++
          (specPhase1 ab ctl details (st.teacher.map Prod.fst) groups).1 ∧
      (simpleP1Go ab ctl details groups st).teacher.map Prod.fst =
        (specPhase1 ab ctl details (st.teacher.map Prod.fst) groups).2 := by
  intro groups
  induction groups with
  | nil =>
    intro st
    rw [specPhase1_nil]
    exact ⟨by simp [simpleP1Go], rfl⟩
  | cons g gs ih =>
    intro st
    rw [simpleP1Go_cons]
    cases hd : dget details g.1 with
    | none =>
      rw [simpleP1Step_none ab ctl details st g hd,
        specPhase1_cons_none ab ctl details _ g gs hd]
      exact ih { st with unresolvedP1 := st.unresolvedP1 ++ g.2 }
    | some course =>
      rw [simpleP1Step_some ab ctl details st g course hd,
        specPhase1_cons_some ab ctl details _ g gs course hd]
      have hc := simpleSecFold_spec ab (effAvail ab course.availableBlocks)
        course.unavailableBlocks (lecturerOf ctl g.1) g.1
        (secRange course.numSections) [] st
      have hc1 : (simpleCourseP1 ab ctl g.1 course st).secWrites =
          st.secWrites ++
            ((specCourseAssign ab (effAvail ab course.availableBlocks)
              course.unavailableBlocks (lecturerOf ctl g.1) []
              (st.teacher.map Prod.fst)
              (secRange course.numSections)).1.map
                (fun q => ((g.1, q.1), q.2))) := hc.1
      have hc2 : (simpleCourseP1 ab ctl g.1 course st).teacher.map Prod.fst =
          (specCourseAssign ab (effAvail ab course.availableBlocks)
            course.unavailableBlocks (lecturerOf ctl g.1) []
            (st.teacher.map Prod.fst) (secRange course.numSections)).2 := hc.2
      obtain ⟨ih1, ih2⟩ := ih (simpleCourseP1 ab ctl g.1 course st)
      constructor
      · rw [ih1, hc1, hc2, List.append_assoc]
      · rw [ih2, hc2]

/-- Claim C5, as stated, is false on `milestone2.generate_schedule`: the
course's available-block list is ordered 1B before 1A, and milestone2 scans
that list rather than the ordered global block list, binding section 1 to
block 1B — while the first block of the ordered global list satisfying
conditions (a)-(d) is 1A. -/
theorem c5_counterexample :
    (m2Pipeline ["1A", "1B"] [] c5Chars c5Reqs).secWrites =
      [(("C", 1), "1B")] ∧
    specPickBlock ["1A", "1B"] ["1B", "1A"] [] [] [] "unknown_C" =
      some "1A" :=
  ⟨rfl, rfl⟩

/-- Claim C5, amended: the claim holds for
`simple_scheduler.generate_schedule` — its first pass produces exactly the
section-block bindings of the specification-side first-fit algorithm
(`specPhase1`), which scans the ordered global block list and binds each
section, in increasing index order, to the first block that is eligible,
not excluded, not claimed by an earlier section of the same course, and
free in the section's lecturer's schedule, leaving the section unbound when
no such block exists.  `milestone2.generate_schedule` violates the claim:
it scans the course's available list in the course's own order (see the
counterexample). -/
theorem c5_amended (ab : List String)
    (ctl : List ((String × Nat) × String))
    (details : List (String × CourseDetails))
    (groups : List (String × List Req)) :
    (simpleSchedule ab ctl details groups).secWrites =
      (specPhase1 ab ctl details [] groups).1 :=
  (simpleP1Go_spec ab ctl details groups ⟨[], [], []⟩).1

/-! Claim C10: the empty available-block list substitution. -/

/-- Claim C10: in `simple_scheduler.generate_schedule`, a course whose
available (eligible) block list is present but empty is processed exactly
as if its available list were the full global block list — the falsy-list
check substitutes `rules['all_blocks']` before block assignment, so the
course's sections may be bound to any non-excluded block instead of
remaining unbound. -/
theorem c10_empty_available (ab : List String)
    (ctl : List ((String × Nat) × String)) (c : String)
    (course : CourseDetails) (st : P1State)
    (h : course.availableBlocks = []) :
    simpleCourseP1 ab ctl c course st =
      simpleCourseP1 ab ctl c { course with availableBlocks := ab } st := by
  rw [simpleCourseP1, simpleCourseP1]
  simp only [h]
  have e2 : effAvail ab ab = ab := by
    rw [effAvail]
    split <;> rfl
  rw [show effAvail ab ([] : List String) = ab from rfl, e2]

/-- Witness for claim C10 at a concrete input: a course with one section
and an empty available list is processed like one whose available list is
the whole global list. -/
theorem c10_empty_available_witness :
    c10Course.availableBlocks = [] ∧
    simpleCourseP1 ["1A"] [] "C" c10Course ⟨[], [], []⟩ =
      simpleCourseP1 ["1A"] [] "C"
        { c10Course with availableBlocks := ["1A"] } ⟨[], [], []⟩ :=
  ⟨rfl, c10_empty_available ["1A"] [] "C" c10Course ⟨[], [], []⟩ rfl⟩
